import Mathlib

/-!
Shallow embedding of the artifact-downloader core (version parser,
artifact-type classifier, the two provider adapters' `search`, the CLI
resolution flow of `download-artifacts`, the `list-products` aggregation,
and the adapters' error propagation), together with theorems settling the
spec claims against it.

Strings are processed at the `List Char` level (`String.data`), mirroring
the JavaScript string operations of the source; JS truthiness of optional
string/number fields is modelled explicitly.
-/

namespace ArtifactDownloader

/-- `ParsedVersion` from `src/types/index.ts`:
`{ version: string; buildNumber?: string }`. -/
structure ParsedVersion where
  version : String
  buildNumber : Option String := none
deriving Repr, DecidableEq

/-- Maximal leading run of ASCII digits together with the rest of the input;
`none` when the input does not start with a digit.  This realises the greedy
`\d+` of the anchored patterns in `src/utils/version-parser.ts`: the
character after a maximal digit run is never a digit, so regex backtracking
cannot produce any other match. -/
def chompDigits (l : List Char) : Option (List Char × List Char) :=
  let d := l.takeWhile Char.isDigit
  if d.isEmpty then none else some (d, l.dropWhile Char.isDigit)

/-- Matches the anchored prefix `\d+\.\d+\.\d+` (the capture group shared by
all three patterns of `parseVersion`); returns the matched characters and
the remaining input. -/
def matchXYZrest (l : List Char) : Option (List Char × List Char) :=
  match chompDigits l with
  | none => none
  | some (x, r1) =>
    match r1 with
    | '.' :: r1' =>
      match chompDigits r1' with
      | none => none
      | some (y, r2) =>
        match r2 with
        | '.' :: r2' =>
          match chompDigits r2' with
          | none => none
          | some (z, rest) => some (x ++ '.' :: (y ++ '.' :: z), rest)
        | _ => none
    | _ => none

/-- Pattern 1 of `parseVersion`: `/^(\d+\.\d+\.\d+)\+(\d+)$/`. -/
def matchPlusPat (l : List Char) : Option (List Char × List Char) :=
  match matchXYZrest l with
  | some (v, c :: b) =>
    if c = '+' && !b.isEmpty && b.all Char.isDigit then some (v, b) else none
  | _ => none

/-- Pattern 2 of `parseVersion`: `/^(\d+\.\d+\.\d+)\((\d+)\)$/`. -/
def matchParenPat (l : List Char) : Option (List Char × List Char) :=
  match matchXYZrest l with
  | some (v, c :: rest) =>
    let b := rest.dropLast
    if c = '(' && rest.getLast? = some ')' && !b.isEmpty && b.all Char.isDigit then
      some (v, b)
    else none
  | _ => none

/-- Pattern 3 of `parseVersion`: `/^(\d+\.\d+\.\d+)$/`. -/
def matchBarePat (l : List Char) : Bool :=
  match matchXYZrest l with
  | some (_, []) => true
  | _ => false

/-- `parseVersion` from `src/utils/version-parser.ts`, at the character
level.  The v-strip is `versionString.startsWith('v') ?
versionString.substring(1) : versionString` — case-sensitive in
JavaScript, so only a lowercase `'v'` is removed. -/
def parseVersionChars (chars : List Char) : ParsedVersion :=
  let normalizedVersion : List Char :=
    if chars.head? = some 'v' then chars.tail else chars
  match matchPlusPat normalizedVersion with
  | some (v, b) => { version := String.mk v, buildNumber := some (String.mk b) }
  | none =>
  match matchParenPat normalizedVersion with
  | some (v, b) => { version := String.mk v, buildNumber := some (String.mk b) }
  | none =>
  if matchBarePat normalizedVersion then
    { version := String.mk normalizedVersion }
  else
    -- no pattern matched: return the normalized string as version
    { version := String.mk normalizedVersion }

/-- `parseVersion` from `src/utils/version-parser.ts`. -/
def parseVersion (versionString : String) : ParsedVersion :=
  parseVersionChars versionString.data

/-- `formatVersion` from `src/utils/version-parser.ts`; `if (buildNumber)`
is a JS truthiness test, so an empty build number renders as the bare
version. -/
def formatVersion (version : String) (buildNumber : Option String := none) : String :=
  match buildNumber with
  | some b => if b.data.isEmpty then version else version ++ "+" ++ b
  | none => version

/-! ## JS truthiness and shared string helpers -/

/-- JS truthiness of an optional string (`undefined` and `""` are falsy). -/
def truthy : Option String → Bool
  | some s => !s.data.isEmpty
  | none => false

/-- `options.limit || 3`: JS truthiness of an optional number
(`undefined` and `0` are falsy). -/
def limitOrDefault : Option Nat → Nat
  | some n => if n = 0 then 3 else n
  | none => 3

/-- `if (options.buildNumber && buildNumber !== options.buildNumber) continue;`
— the skip test both adapters' search loops apply verbatim. -/
def buildNumberSkip (optBuild : Option String) (buildNumber : String) : Bool :=
  match optBuild with
  | none => false
  | some b => if b.data.isEmpty then false else buildNumber != b

/-- `s.toLowerCase()` on the character list of an (ASCII) file name. -/
def lowerChars (l : List Char) : List Char := l.map Char.toLower

/-- Whether `needle` occurs as a contiguous run inside `hay`. -/
def charsInfix (needle hay : List Char) : Bool :=
  match hay with
  | [] => needle.isEmpty
  | _ :: t => needle.isPrefixOf hay || charsInfix needle t

/-- `hay.includes(needle)` for JS strings, at the character-list level. -/
def strIncludes (hay : List Char) (needle : String) : Bool :=
  charsInfix needle.data hay

/-- `hay.endsWith(suffix)` for JS strings, at the character-list level. -/
def strEndsWith (hay : List Char) (suffix : String) : Bool :=
  suffix.data.isSuffixOf hay

/-- `String.prototype.split(sep)` for a single-character separator,
with JS semantics (`"a:b".split(':') = ["a","b"]`, `":".split(':') = ["",""]`). -/
def splitChar (c : Char) : List Char → List (List Char)
  | [] => [[]]
  | x :: xs =>
    let r := splitChar c xs
    if x = c then [] :: r
    else
      match r with
      | h :: t => (x :: h) :: t
      | [] => [[x]]

/-! ## Data model (`src/types/index.ts`) -/

/-- `SearchOptions` from `src/types/index.ts`. -/
structure SearchOptions where
  appId : String
  limit : Option Nat := none
  version : Option String := none
  buildNumber : Option String := none
  artifactType : Option String := none
deriving Repr, DecidableEq

/-- `Artifact` from `src/types/index.ts`.  `uploadedAt` keeps the raw
timestamp string handed to `new Date(...)`. -/
structure Artifact where
  id : String
  version : String
  buildNumber : String
  artifactType : String
  fileName : String
  fileSize : Nat
  uploadedAt : String
  provider : String
deriving Repr, DecidableEq

/-! ## Artifact-type classification (inline in `AppStoreConnectProvider.search`) -/

/-- The filename-based artifact-type chain of `AppStoreConnectProvider.search`
(and, identically, of its `getById`): case-insensitive substring tests in
fixed priority, then the `.ipa` extension, defaulting to `archive`. -/
def classifyFileName (fileName : String) : String :=
  let lowerFileName := lowerChars fileName.data
  if strIncludes lowerFileName "development" then "development"
  else if strIncludes lowerFileName "ad-hoc" || strIncludes lowerFileName "ad_hoc" then "ad_hoc"
  else if strIncludes lowerFileName "app-store" || strIncludes lowerFileName "app_store" then "app_store"
  else if strIncludes lowerFileName "logs" then "logs"
  else if strIncludes lowerFileName "xcresult" || strIncludes lowerFileName ".xcresult" then "xcresult"
  else if strIncludes lowerFileName ".xcarchive" then "xcarchive"
  else if strEndsWith lowerFileName ".ipa" then "ipa"
  else "archive"

/-- `ipaTypes` from `AppStoreConnectProvider.search`: the types that a
filter of `'ipa'` additionally accepts. -/
def ipaTypes : List String := ["development", "ad_hoc", "app_store"]

/-- The unanchored version-extraction regex `/(\d+\.\d+\.\d+)/` of
`AppStoreConnectProvider.search`: leftmost match, greedy digit runs
(maximal munch is exact here, as for the parser's anchored patterns). -/
def findVersionChars : List Char → Option (List Char)
  | [] => none
  | c :: rest =>
    match matchXYZrest (c :: rest) with
    | some (m, _) => some m
    | none => findVersionChars rest

/-- `fileName.match(/(\d+\.\d+\.\d+)/)` with the `'unknown'` fallback of
`AppStoreConnectProvider.search`. -/
def extractVersion (fileName : String) : String :=
  match findVersionChars fileName.data with
  | some m => String.mk m
  | none => "unknown"

/-! ## App Store Connect adapter (`search` of `AppStoreConnectProvider`) -/

/-- An entry of the `/ciProducts` response. -/
structure CiProduct where
  id : String
  name : String
deriving Repr, DecidableEq

/-- An entry of a `/ciBuildActions/.../artifacts` response. -/
structure CiArtifactRec where
  id : String
  fileName : String
  fileSize : Nat
deriving Repr, DecidableEq

/-- An entry of a `/ciBuildRuns/.../actions` response, carrying the
artifacts that the per-action artifacts request would return. -/
structure CiAction where
  id : String
  actionType : String
  artifacts : List CiArtifactRec
deriving Repr, DecidableEq

/-- An entry of a `/ciProducts/.../buildRuns` response, carrying the
actions that the per-run actions request would return. -/
structure CiBuildRun where
  id : String
  number : Nat
  createdDate : String
  actions : List CiAction
deriving Repr, DecidableEq

/-- Upstream state seen by the adapter: the `/ciProducts` listing and, per
product id, the full newest-first (`sort: '-number'`) build-run history; a
build-runs request with `limit: n` returns the first `n` entries of that
history. -/
structure AscUpstream where
  products : List CiProduct
  buildRuns : String → List CiBuildRun

/-- Result of one of the nested `for` loops of `search`: either the early
`return artifacts.slice(0, limit)` fired, or the loop ran out of input and
control continues with the accumulated artifacts. -/
inductive LoopRes where
  | done (result : List Artifact)
  | cont (acc : List Artifact)
deriving Repr, DecidableEq

/-- The artifact-type filter of `AppStoreConnectProvider.search`: with a
(truthy) filter of `'ipa'`, the three `ipaTypes` also pass; otherwise the
classified type must match the filter exactly. -/
def ascTypeSkip (optType : Option String) (artifactType : String) : Bool :=
  match optType with
  | none => false
  | some t =>
    if t.data.isEmpty then false
    else if t == "ipa" && ipaTypes.contains artifactType then false
    else artifactType != t

/-- Construction of the pushed `Artifact` in `AppStoreConnectProvider.search`:
`version: options.version || version` overrides the filename-extracted
version with a truthy requested one. -/
def ascMkArtifact (opts : SearchOptions) (buildNumber createdDate : String)
    (a : CiArtifactRec) : Artifact :=
  let extracted := extractVersion a.fileName
  { id := a.id
    version :=
      match opts.version with
      | some v => if v.data.isEmpty then extracted else v
      | none => extracted
    buildNumber := buildNumber
    artifactType := classifyFileName a.fileName
    fileName := a.fileName
    fileSize := a.fileSize
    uploadedAt := createdDate
    provider := "app-store-connect" }

/-- The innermost loop of `AppStoreConnectProvider.search`
(`for (const artifact of artifactsData.data)`): classify the file name,
apply the artifact-type filter, push, and early-return once `limit`
artifacts are collected. -/
def ascArtifactsLoop (opts : SearchOptions) (buildNumber createdDate : String) :
    List CiArtifactRec → List Artifact → LoopRes
  | [], acc => .cont acc
  | a :: rest, acc =>
    if ascTypeSkip opts.artifactType (classifyFileName a.fileName) then
      ascArtifactsLoop opts buildNumber createdDate rest acc
    else
      let acc' := acc ++ [ascMkArtifact opts buildNumber createdDate a]
      if limitOrDefault opts.limit ≤ acc'.length then
        .done (acc'.take (limitOrDefault opts.limit))
      else ascArtifactsLoop opts buildNumber createdDate rest acc'

/-- `for (const action of archiveActions)` of `AppStoreConnectProvider.search`. -/
def ascActionsLoop (opts : SearchOptions) (buildNumber createdDate : String) :
    List CiAction → List Artifact → LoopRes
  | [], acc => .cont acc
  | action :: rest, acc =>
    match ascArtifactsLoop opts buildNumber createdDate action.artifacts acc with
    | .done r => .done r
    | .cont acc' => ascActionsLoop opts buildNumber createdDate rest acc'

/-- `for (const buildRun of buildRunsData.data)` of
`AppStoreConnectProvider.search`: skip runs failing the build-number
filter, keep only `ARCHIVE` actions, and process their artifacts. -/
def ascBuildRunsLoop (opts : SearchOptions) :
    List CiBuildRun → List Artifact → LoopRes
  | [], acc => .cont acc
  | br :: rest, acc =>
    if buildNumberSkip opts.buildNumber (toString br.number) then
      ascBuildRunsLoop opts rest acc
    else
      let buildNumber := toString br.number
      let archiveActions := br.actions.filter fun action => action.actionType == "ARCHIVE"
      match ascActionsLoop opts buildNumber br.createdDate archiveActions acc with
      | .done r => .done r
      | .cont acc' => ascBuildRunsLoop opts rest acc'

/-- `AppStoreConnectProvider.search`: find the product by name, fetch
`max(3 * limit, 20)` build runs newest-first, and run the filtering loops.
A thrown `Error` is modelled as `Except.error` carrying its message (the
product-not-found message is abbreviated; no claim depends on its
wording). -/
def ascSearch (u : AscUpstream) (opts : SearchOptions) : Except String (List Artifact) :=
  match u.products.find? (fun p => p.name == opts.appId) with
  | none => .error ("Product " ++ opts.appId ++ " not found in Xcode Cloud.")
  | some product =>
    let buildRunLimit := max (limitOrDefault opts.limit * 3) 20
    let runs := (u.buildRuns product.id).take buildRunLimit
    match ascBuildRunsLoop opts runs [] with
    | .done r => .ok r
    | .cont acc => .ok acc

/-! ## Firebase App Distribution adapter (`search` of
`FirebaseAppDistributionProvider`) -/

/-- `FirebaseApp` of `src/providers/firebase-app-distribution.ts`. -/
structure FirebaseApp where
  name : String
  appId : String
  projectId : String
  bundleId : Option String := none
  packageName : Option String := none
deriving Repr, DecidableEq

/-- An entry of a `.../releases` response. -/
structure FbRelease where
  name : String
  displayVersion : String
  buildVersion : String
  createTime : String
deriving Repr, DecidableEq

/-- Upstream state seen by the adapter: the management API's Android and
iOS app listings (`none` models a failed or apps-less response, which
`findApp` swallows per platform), and per `appId` the full newest-first
release history; a releases request with `pageSize: n` returns its first
`n` entries. -/
structure FbUpstream where
  androidApps : Option (List FirebaseApp)
  iosApps : Option (List FirebaseApp)
  releases : String → List FbRelease

/-- `findApp` of `FirebaseAppDistributionProvider`: Android apps first
(matching `packageName` or `appId`), then iOS apps (matching `bundleId` or
`appId`); a found app gets the configured project id spliced in. -/
def fbFindApp (cfgProjectId : String) (u : FbUpstream) (bundleIdOrPackageId : String) :
    Option FirebaseApp :=
  let fromAndroid :=
    match u.androidApps with
    | some apps => apps.find? (fun (app : FirebaseApp) =>
        app.packageName == some bundleIdOrPackageId || app.appId == bundleIdOrPackageId)
    | none => none
  match fromAndroid with
  | some app => some { app with projectId := cfgProjectId }
  | none =>
    match u.iosApps with
    | some apps =>
      match apps.find? (fun (app : FirebaseApp) =>
          app.bundleId == some bundleIdOrPackageId || app.appId == bundleIdOrPackageId) with
      | some app => some { app with projectId := cfgProjectId }
      | none => none
    | none => none

/-- `determineArtifactType` of `FirebaseAppDistributionProvider`
(JS truthiness on the optional `bundleId` / `packageName` / `fileName`). -/
def determineArtifactType (app : FirebaseApp) (fileName : Option String := none) : String :=
  if truthy app.bundleId then "ipa"
  else if truthy app.packageName then
    if truthy fileName then
      let f := (fileName.getD "").data
      if strEndsWith f ".apk" then "apk"
      else if strEndsWith f ".aab" then "aab"
      else "apk"
    else "apk"
  else "unknown"

/-- JS `a || b` on two optional strings. -/
def jsOr (a b : Option String) : Option String := if truthy a then a else b

/-- JS template interpolation of a possibly-`undefined` string. -/
def templateStr : Option String → String
  | some s => s
  | none => "undefined"

/-- `release.name.split('/').pop() || ''`. -/
def lastSegmentOr (s : String) : String :=
  match (splitChar '/' s.data).getLast? with
  | some seg => String.mk seg
  | none => ""

/-- The version filter of `FirebaseAppDistributionProvider.search`:
`if (options.version && release.displayVersion !== options.version) continue;`. -/
def fbVersionSkip (optVersion : Option String) (displayVersion : String) : Bool :=
  match optVersion with
  | none => false
  | some v => if v.data.isEmpty then false else displayVersion != v

/-- The artifact-type filter of `FirebaseAppDistributionProvider.search`:
exact match only — no `'ipa'` equivalence class here. -/
def fbTypeSkip (optType : Option String) (artifactType : String) : Bool :=
  match optType with
  | none => false
  | some t => if t.data.isEmpty then false else artifactType != t

/-- Construction of the pushed `Artifact` in
`FirebaseAppDistributionProvider.search`. -/
def fbMkArtifact (app : FirebaseApp) (rel : FbRelease) : Artifact :=
  let artifactType := determineArtifactType app
  let baseName := templateStr (jsOr app.bundleId app.packageName) ++ "_" ++
    rel.displayVersion ++ "_" ++ rel.buildVersion
  let ext := if artifactType == "ipa" then ".ipa"
             else if artifactType == "aab" then ".aab" else ".apk"
  { id := lastSegmentOr rel.name
    version := rel.displayVersion
    buildNumber := rel.buildVersion
    artifactType := artifactType
    fileName := baseName ++ ext
    fileSize := 0
    uploadedAt := rel.createTime
    provider := "app-distribution" }

/-- The release loop of `FirebaseAppDistributionProvider.search`: skip on
build-number, version and artifact-type filters, push, and `break` once
`limit` artifacts are collected. -/
def fbReleasesLoop (opts : SearchOptions) (app : FirebaseApp) :
    List FbRelease → List Artifact → List Artifact
  | [], acc => acc
  | rel :: rest, acc =>
    if buildNumberSkip opts.buildNumber rel.buildVersion then
      fbReleasesLoop opts app rest acc
    else if fbVersionSkip opts.version rel.displayVersion then
      fbReleasesLoop opts app rest acc
    else if fbTypeSkip opts.artifactType (determineArtifactType app) then
      fbReleasesLoop opts app rest acc
    else
      let acc' := acc ++ [fbMkArtifact app rel]
      if limitOrDefault opts.limit ≤ acc'.length then acc'
      else fbReleasesLoop opts app rest acc'

/-- `FirebaseAppDistributionProvider.search`: find the app, check the
project number can be extracted, fetch a fixed page of 50 releases
(`pageSize: 50`), run the filter loop, and slice to `limit`. -/
def fbSearch (cfgProjectId : String) (u : FbUpstream) (opts : SearchOptions) :
    Except String (List Artifact) :=
  match fbFindApp cfgProjectId u opts.appId with
  | none => .error ("App with ID " ++ opts.appId ++ " not found")
  | some app =>
    match (splitChar ':' app.appId.data).get? 1 with
    | none => .error ("Could not extract project number from app ID: " ++ app.appId)
    | some pn =>
      if pn.isEmpty then
        .error ("Could not extract project number from app ID: " ++ app.appId)
      else
        let releases := (u.releases app.appId).take 50
        .ok ((fbReleasesLoop opts app releases []).take (limitOrDefault opts.limit))

/-! ## CLI resolution flow (`executeDownload` of `src/cli/download-artifacts.ts`) -/

/-- Outcome of the artifact-resolution phase of `executeDownload`:
`notFound` models the explicit empty-result `process.exit(1)` paths,
`failed` the outer `catch` on a thrown error. -/
inductive ResolveOutcome (ε : Type) where
  | resolved (a : Artifact)
  | notFound
  | failed (e : ε)
deriving Repr, DecidableEq

/-- `versionOrId.toLowerCase() === 'latest'`. -/
def isLatestStr (versionOrId : String) : Bool :=
  lowerChars versionOrId.data == "latest".data

/-- `[0-9a-f]`, case-insensitively. -/
def isHexChar (c : Char) : Bool :=
  c.isDigit || ('a' ≤ c.toLower && c.toLower ≤ 'f')

/-- The UUID test `/^[0-9a-f]{8}-[0-9a-f]{4}-[0-9a-f]{4}-[0-9a-f]{4}-[0-9a-f]{12}$/i`
(hex characters never contain `'-'`, so the anchored regex is equivalent to
this shape test on the dash-split). -/
def isUuidStr (s : String) : Bool :=
  match splitChar '-' s.data with
  | [a, b, c, d, e] =>
    a.length == 8 && b.length == 4 && c.length == 4 && d.length == 4 &&
    e.length == 12 && a.all isHexChar && b.all isHexChar && c.all isHexChar &&
    d.all isHexChar && e.all isHexChar
  | _ => false

/-- The Firebase-id test `/^[0-9a-z]{13}$/i`. -/
def isFirebaseIdStr (s : String) : Bool :=
  s.data.length == 13 && s.data.all fun c => c.isDigit || c.isAlpha

/-- `isUuid || isFirebaseId` of `executeDownload`. -/
def isArtifactIdStr (s : String) : Bool := isUuidStr s || isFirebaseIdStr s

/-- The options of the `download-artifacts` command that the resolution
phase reads (`--app-id`, `--from`, `--artifact-type`, `--output`). -/
structure DownloadCliOptions where
  appId : String
  fromProvider : String
  output : String := "./downloads"
  artifactType : Option String := none
deriving Repr, DecidableEq

/-- The `Map<string, Artifact>` grouping of `executeDownload`: one artifact
per `artifactType`, first seen wins, insertion order preserved. -/
def groupFirstByType : List Artifact → List (String × Artifact) → List (String × Artifact)
  | [], m => m
  | a :: rest, m =>
    if m.any (fun p => p.1 == a.artifactType) then groupFirstByType rest m
    else groupFirstByType rest (m ++ [(a.artifactType, a)])

/-- The resolution phase of `executeDownload`: mode detection, the three
strategies (latest / by-id / by-version) and disambiguation.  `search` is
the provider collaborator, `chooser` the injected interactive prompt; the
chooser receives the insertion-ordered `(type, artifact)` entries that the
`inquirer` choice list is built from. -/
def executeDownloadResolve {ε : Type} (search : SearchOptions → Except ε (List Artifact))
    (chooser : List (String × Artifact) → Artifact)
    (versionOrId : String) (opts : DownloadCliOptions) : ResolveOutcome ε :=
  let isLatest := isLatestStr versionOrId
  let isArtifactId := isArtifactIdStr versionOrId
  if isLatest then
    if opts.fromProvider == "app-store-connect" && !truthy opts.artifactType then
      match search { appId := opts.appId, limit := some 10 } with
      | .error e => .failed e
      | .ok allArtifacts =>
        if allArtifacts.isEmpty then .notFound
        else
          let artifactsByType := groupFirstByType allArtifacts []
          if artifactsByType.length == 1 then
            match artifactsByType with
            | (_, a) :: _ => .resolved a
            | [] => .notFound  -- unreachable: grouping a nonempty list is nonempty
          else .resolved (chooser artifactsByType)
    else
      match search { appId := opts.appId, artifactType := opts.artifactType,
                     limit := some 1 } with
      | .error e => .failed e
      | .ok artifacts =>
        match artifacts with
        | [] => .notFound
        | a :: _ => .resolved a
  else if isArtifactId then
    match search { appId := opts.appId, limit := some 50 } with
    | .error e => .failed e
    | .ok artifacts =>
      match artifacts.find? (fun a => a.id == versionOrId) with
      | some a => .resolved a
      | none => .notFound
  else
    let parsed := parseVersion versionOrId
    match search { appId := opts.appId, version := some parsed.version,
                   buildNumber := parsed.buildNumber,
                   artifactType := opts.artifactType, limit := some 1 } with
    | .error e => .failed e
    | .ok artifacts =>
      match artifacts with
      | [] => .notFound
      | a :: _ => .resolved a

/-! ## Output-path computation of `executeDownload` (Node `path.join`) -/

/-- Join path segments back together with `'/'`. -/
def joinSegs : List (List Char) → List Char
  | [] => []
  | [s] => s
  | s :: rest => s ++ '/' :: joinSegs rest

/-- One segment step of Node's `normalizeString`: drop empty and `.`
segments and resolve `..` against the stack of kept segments. -/
def normStep (allowAboveRoot : Bool) (stack : List (List Char)) (seg : List Char) :
    List (List Char) :=
  if seg = [] || seg = ['.'] then stack
  else if seg = ['.', '.'] then
    if stack ≠ [] ∧ stack.getLast? ≠ some ['.', '.'] then stack.dropLast
    else if allowAboveRoot then stack ++ [['.', '.']]
    else stack
  else stack ++ [seg]

/-- Node `path.posix.normalize`. -/
def pathNormalize (p : List Char) : List Char :=
  if p = [] then ['.']
  else
    let isAbsolute := p.head? == some '/'
    let trailingSeparator := p.getLast? == some '/'
    let stack := (splitChar '/' p).foldl (normStep !isAbsolute) []
    let res := joinSegs stack
    if res = [] then
      if isAbsolute then ['/']
      else if trailingSeparator then ['.', '/'] else ['.']
    else
      let res' := if trailingSeparator then res ++ ['/'] else res
      if isAbsolute then '/' :: res' else res'

/-- Node `path.posix.join` restricted to two arguments, as called at
`join(outputPath, artifact.fileName)`: concatenate the nonempty arguments
with `'/'` and normalize. -/
def pathJoin (a b : String) : String :=
  match a.data, b.data with
  | [], [] => "."
  | ja, [] => String.mk (pathNormalize ja)
  | [], jb => String.mk (pathNormalize jb)
  | ja, jb => String.mk (pathNormalize (ja ++ '/' :: jb))

/-- The output-path computation of `executeDownload`: use the destination
verbatim when it already ends with the artifact's file name, otherwise
treat it as a directory and `join` the file name onto it.  (The subsequent
`mkdir(dirname(outputPath), {recursive: true})` is an idempotent
filesystem effect outside this value-level model.) -/
def resolveOutputPath (output fileName : String) : String :=
  if strEndsWith output.data fileName then output
  else pathJoin output fileName

/-! ## `executeListProducts` (`list-products` command, multi-provider
discovery) -/

/-- An entry returned by a provider's `listProducts()`. -/
structure ProductInfo where
  id : String
  name : String
  platform : Option String := none
deriving Repr, DecidableEq

/-- A row of the aggregated listing (`{...p, provider}`). -/
structure ProductRow where
  id : String
  name : String
  platform : Option String := none
  provider : String
deriving Repr, DecidableEq

/-- Environment of one `executeListProducts` run: per-provider config
validity and the outcome each provider's `listProducts()` call would
have. -/
structure ListProductsEnv where
  ascConfigValid : Bool
  fbConfigValid : Bool
  ascProducts : Except String (List ProductInfo)
  fbProducts : Except String (List ProductInfo)

/-- Outcome of `executeListProducts` up to rendering: the aggregated rows
plus recorded warnings, the missing-config `process.exit(1)` for an
explicitly requested provider, or the outer-catch hard failure. -/
inductive ListOutcome where
  | success (products : List ProductRow) (warnings : List String)
  | configExit (provider : String)
  | hardError (e : String)
deriving Repr, DecidableEq

/-- `executeListProducts` of the `list-products` command, up to (and
excluding) the platform filter and rendering: each provider block runs
when requested by `--from`, a listing failure becomes a warning under
`--from all` but a hard error when that provider was explicitly
requested, and missing config exits only for an explicitly requested
provider. -/
def executeListProducts (env : ListProductsEnv) (fromOpt : String) : ListOutcome :=
  let ascStep : Except ListOutcome (List ProductRow × List String) :=
    if fromOpt == "all" || fromOpt == "app-store-connect" then
      if env.ascConfigValid then
        match env.ascProducts with
        | .ok ps =>
          .ok (ps.map fun p => ⟨p.id, p.name, p.platform, "App Store Connect"⟩, [])
        | .error e =>
          if fromOpt == "app-store-connect" then .error (.hardError e)
          else .ok ([], ["Failed to fetch from App Store Connect: " ++ e])
      else if fromOpt == "app-store-connect" then
        .error (.configExit "app-store-connect")
      else .ok ([], [])
    else .ok ([], [])
  match ascStep with
  | .error out => out
  | .ok (acc, warnings) =>
    let fbStep : Except ListOutcome (List ProductRow × List String) :=
      if fromOpt == "all" || fromOpt == "app-distribution" then
        if env.fbConfigValid then
          match env.fbProducts with
          | .ok ps =>
            .ok (ps.map fun p => ⟨p.id, p.name, p.platform, "Firebase App Distribution"⟩, [])
          | .error e =>
            if fromOpt == "app-distribution" then .error (.hardError e)
            else .ok ([], ["Failed to fetch from Firebase App Distribution: " ++ e])
        else if fromOpt == "app-distribution" then
          .error (.configExit "app-distribution")
        else .ok ([], [])
      else .ok ([], [])
    match fbStep with
    | .error out => out
    | .ok (acc', warnings') => .success (acc ++ acc') (warnings ++ warnings')

/-! ## Adapter error propagation (`request` of both providers) -/

/-- Outcome of one upstream HTTP request at the transport layer. -/
inductive UpstreamHttp (α : Type) where
  | ok (data : α)
  | httpError (status : Nat)
  | networkError
deriving Repr, DecidableEq

/-- The error value an adapter lets escape, as the source leaves it: the
raw transport error (carrying the HTTP status when a response arrived,
nothing otherwise), or an application-level `Error` with a message. -/
inductive AdapterError where
  | http (status : Nat)
  | network
  | appError (msg : String)
deriving Repr, DecidableEq

/-- `AppStoreConnectProvider.request`: its `catch` only debug-logs and
rethrows the very same error, so the transport failure propagates
unmodified. -/
def ascRequest {α : Type} (r : UpstreamHttp α) : Except AdapterError α :=
  match r with
  | .ok a => .ok a
  | .httpError s => .error (.http s)
  | .networkError => .error .network

/-- `FirebaseAppDistributionProvider.request`: no `catch` at all; the
transport failure propagates unmodified. -/
def fbRequest {α : Type} (r : UpstreamHttp α) : Except AdapterError α :=
  match r with
  | .ok a => .ok a
  | .httpError s => .error (.http s)
  | .networkError => .error .network

/-- Modelled from the spec: the class names `AuthError`, `PermissionError`,
`NotFoundError`, `TransportError` of §7 appear nowhere in the source; the
taxonomy is realised as a classification of the propagated failure by the
HTTP status it carries (as the `auth-check` command's handler does). -/
inductive SpecErrorKind where
  | auth
  | permission
  | notFoundKind
  | transport
  | appLevel
deriving Repr, DecidableEq

/-- Modelled from the spec: `401 → AuthError`, `403 → PermissionError`,
`404 → NotFoundError`, any other network/HTTP failure `→ TransportError`;
an adapter-thrown application `Error` is outside the four kinds. -/
def specErrorKind : AdapterError → SpecErrorKind
  | .http 401 => .auth
  | .http 403 => .permission
  | .http 404 => .notFoundKind
  | .http _ => .transport
  | .network => .transport
  | .appError _ => .appLevel

/-! ## Concrete scenario data -/

/-- The §8 scenario stream: newest-first upstream artifacts
`[ad_hoc, ad_hoc, logs, development ×5]`. -/
def scenarioStream : List CiArtifactRec :=
  [⟨"a1", "App-ad-hoc-1.ipa", 11⟩, ⟨"a2", "App-ad-hoc-2.ipa", 12⟩,
   ⟨"a3", "App-logs.zip", 13⟩, ⟨"a4", "App-development-1.ipa", 14⟩,
   ⟨"a5", "App-development-2.ipa", 15⟩, ⟨"a6", "App-development-3.ipa", 16⟩,
   ⟨"a7", "App-development-4.ipa", 17⟩, ⟨"a8", "App-development-5.ipa", 18⟩]

/-- One product, one build run (number 42), one `ARCHIVE` action holding
the scenario stream. -/
def scenarioUpstream : AscUpstream :=
  { products := [⟨"prod1", "App"⟩]
    buildRuns := fun pid =>
      if pid = "prod1" then
        [⟨"run1", 42, "2024-01-01", [⟨"act1", "ARCHIVE", scenarioStream⟩]⟩]
      else [] }

/-! ## Lemmas: version parser -/

/-- Nonempty all-digit character list (the `\d+` groups of the parser's
regexes), as a decidable `Bool` for use in witnesses. -/
def digitsOnly (l : List Char) : Bool := !l.isEmpty && l.all Char.isDigit

/-- The characters `X.Y.Z` of a dotted version string. -/
def xyzChars (x y z : List Char) : List Char := x ++ '.' :: (y ++ '.' :: z)

/-- The v-strip normalization step alone, for stating the no-match path. -/
def stripLeadingV (s : String) : String :=
  if s.data.head? = some 'v' then String.mk s.data.tail else s

/-- The six supported spellings of §8: `X.Y.Z`, `X.Y.Z+B`, `X.Y.Z(B)`,
each optionally prefixed with a lowercase `'v'`. -/
def supportedForms (x y z b : List Char) : List String :=
  [String.mk (xyzChars x y z), String.mk ('v' :: xyzChars x y z),
   String.mk (xyzChars x y z ++ '+' :: b),
   String.mk ('v' :: (xyzChars x y z ++ '+' :: b)),
   String.mk (xyzChars x y z ++ '(' :: (b ++ [')'])),
   String.mk ('v' :: (xyzChars x y z ++ '(' :: (b ++ [')'])))]

/-! ## Lemmas: App Store Connect search as take-`limit` of the matching
stream -/

/-- The artifacts of one artifacts response that pass the type filter,
already converted — the stream `ascArtifactsLoop` collects from. -/
def ascMatchedOfArtifacts (opts : SearchOptions) (buildNumber createdDate : String)
    (arts : List CiArtifactRec) : List Artifact :=
  (arts.filter fun a => !ascTypeSkip opts.artifactType (classifyFileName a.fileName)).map
    (ascMkArtifact opts buildNumber createdDate)

/-- All matching artifacts of a run list in stream order, before the
`limit` cut: skip filtered runs, keep `ARCHIVE` actions, filter each
action's artifacts. -/
def ascMatchedArtifacts (opts : SearchOptions) (runs : List CiBuildRun) : List Artifact :=
  runs.flatMap fun br =>
    if buildNumberSkip opts.buildNumber (toString br.number) then []
    else
      (br.actions.filter fun action => action.actionType == "ARCHIVE").flatMap fun act =>
        ascMatchedOfArtifacts opts (toString br.number) br.createdDate act.artifacts

/-! ## Lemmas: Firebase search as take-`limit` of the matching stream -/

/-- The releases that pass all three filters of
`FirebaseAppDistributionProvider.search`, converted — the stream the
release loop collects from. -/
def fbMatchedReleases (opts : SearchOptions) (app : FirebaseApp)
    (rels : List FbRelease) : List Artifact :=
  (rels.filter fun rel =>
    !buildNumberSkip opts.buildNumber rel.buildVersion &&
    !fbVersionSkip opts.version rel.displayVersion &&
    !fbTypeSkip opts.artifactType (determineArtifactType app)).map (fbMkArtifact app)

/-! ## Concrete data for the over-fetch counterexample -/

/-- The search options of the §8 scenario. -/
def scenarioOpts : SearchOptions :=
  { appId := "App", limit := some 3, artifactType := some "ipa" }

/-- Firebase Android app for the over-fetch counterexample. -/
def c8App : FirebaseApp :=
  { name := "app", appId := "1:405:android:abc", projectId := "proj",
    bundleId := none, packageName := some "com.example" }

/-- 51 releases newest-first: 50 with build number 1, then one with
build number 7. -/
def c8Releases : List FbRelease :=
  ((List.range 50).map fun i =>
    { name := "projects/405/apps/1:405:android:abc/releases/r" ++ toString i,
      displayVersion := "1.0.0", buildVersion := "1",
      createTime := "2024-01-01" }) ++
  [{ name := "projects/405/apps/1:405:android:abc/releases/r50",
     displayVersion := "1.0.0", buildVersion := "7", createTime := "2024-01-01" }]

def c8Upstream : FbUpstream :=
  { androidApps := some [c8App], iosApps := some []
    releases := fun aid => if aid = "1:405:android:abc" then c8Releases else [] }

/-- A by-build-number search with limit 17, whose claimed over-fetch
depth `max(3*17, 20) = 51` exceeds the fixed Firebase page of 50. -/
def c8Opts : SearchOptions :=
  { appId := "com.example", limit := some 17, buildNumber := some "7" }

/-! ## Concrete data for the LATEST counterexample -/

/-- Newest candidate (a `development` build). -/
def c1Dev : Artifact :=
  ⟨"d1", "1.0.0", "5", "development", "App-development.ipa", 1, "2024-01-02",
   "app-distribution"⟩

/-- Second candidate with a distinct type (`ad_hoc`). -/
def c1Adhoc : Artifact :=
  ⟨"d2", "1.0.0", "4", "ad_hoc", "App-ad-hoc.ipa", 1, "2024-01-01",
   "app-distribution"⟩

/-- A search collaborator whose 10-deep candidate set holds two distinct
types while its 1-deep answer is just the newest artifact. -/
def c1Search : SearchOptions → Except String (List Artifact) := fun o =>
  if o.limit = some 10 then .ok [c1Dev, c1Adhoc]
  else if o.limit = some 1 then .ok [c1Dev]
  else .ok []

/-- A chooser that always selects the `ad_hoc` candidate. -/
def c1Chooser : List (String × Artifact) → Artifact := fun _ => c1Adhoc

def c1Opts : DownloadCliOptions := { appId := "App", fromProvider := "app-distribution" }

/-- Target artifact for the C3 witness, sitting at position 51 of the
history (outside the 50-deep window). -/
def c3Target : Artifact :=
  ⟨"aaaaaaaaaaaa2", "1.0.0", "50", "ipa", "f.ipa", 0, "t", "app-store-connect"⟩

/-- 50 newer artifacts (all with a different id) followed by the
target. -/
def c3History : List Artifact :=
  ((List.range 50).map fun i =>
    ⟨"aaaaaaaaaaaa1", "1.0.0", toString i, "ipa", "f.ipa", 0, "t",
     "app-store-connect"⟩) ++ [c3Target]

/-- A search collaborator answering the limit-50 request with the first
50 artifacts of the history. -/
def c3Search : SearchOptions → Except String (List Artifact) := fun o =>
  if o.limit = some 50 then .ok (c3History.take 50) else .ok []

example : parseVersion "v1.0.0+20" = { version := "1.0.0", buildNumber := some "20" } := by decide

example : parseVersion "1.0.0(20)" = { version := "1.0.0", buildNumber := some "20" } := by decide

example : parseVersion "1.0.0" = { version := "1.0.0" } := by decide

example : parseVersion "v1.0.0" = { version := "1.0.0" } := by decide

example : parseVersion "invalid" = { version := "invalid" } := by decide

example : parseVersion "V1.0.0+20" = { version := "V1.0.0+20" } := by decide

example : classifyFileName "MyApp-development.ipa" = "development" := by decide

example : classifyFileName "build-ad-hoc.zip" = "ad_hoc" := by decide

example : classifyFileName "release.xcarchive" = "xcarchive" := by decide

example : classifyFileName "plain.ipa" = "ipa" := by decide

example : classifyFileName "mystery.bin" = "archive" := by decide

example : extractVersion "MyApp 3.10.0 development.zip" = "3.10.0" := by decide

example : extractVersion "App-ad-hoc.ipa" = "unknown" := by decide

example : pathJoin "./out" "build.ipa" = "out/build.ipa" := by decide

example : resolveOutputPath "./out/build.ipa" "build.ipa" = "./out/build.ipa" := by decide

example :
    ascSearch scenarioUpstream { appId := "App", limit := some 3, artifactType := some "ipa" } =
      .ok
        [⟨"a1", "unknown", "42", "ad_hoc", "App-ad-hoc-1.ipa", 11, "2024-01-01", "app-store-connect"⟩,
         ⟨"a2", "unknown", "42", "ad_hoc", "App-ad-hoc-2.ipa", 12, "2024-01-01", "app-store-connect"⟩,
         ⟨"a4", "unknown", "42", "development", "App-development-1.ipa", 14, "2024-01-01", "app-store-connect"⟩] := by
  rfl

theorem digitsOnly_iff (l : List Char) :
    digitsOnly l = true ↔ l.isEmpty = false ∧ ∀ d ∈ l, d.isDigit := by
  simp [digitsOnly, List.isEmpty_iff, List.all_eq_true]

theorem takeWhile_append_stop (p : Char → Bool) (x : List Char) (c : Char) (r : List Char)
    (hall : ∀ d ∈ x, p d) (hc : p c = false) :
    (x ++ c :: r).takeWhile p = x := by
  induction x with
  | nil => simp [List.takeWhile_cons, hc]
  | cons a xs ih =>
    have ha : p a := hall a (List.mem_cons_self a xs)
    simp only [List.cons_append, List.takeWhile_cons, ha, if_true]
    rw [ih fun d hd => hall d (List.mem_cons_of_mem a hd)]

theorem dropWhile_append_stop (p : Char → Bool) (x : List Char) (c : Char) (r : List Char)
    (hall : ∀ d ∈ x, p d) (hc : p c = false) :
    (x ++ c :: r).dropWhile p = c :: r := by
  induction x with
  | nil => simp [List.dropWhile_cons, hc]
  | cons a xs ih =>
    have ha : p a := hall a (List.mem_cons_self a xs)
    simp only [List.cons_append, List.dropWhile_cons, ha, if_true]
    exact ih fun d hd => hall d (List.mem_cons_of_mem a hd)

theorem chompDigits_all (x : List Char) (hne : x.isEmpty = false)
    (hall : ∀ d ∈ x, d.isDigit) : chompDigits x = some (x, []) := by
  unfold chompDigits
  rw [List.takeWhile_eq_self_iff.mpr hall, List.dropWhile_eq_nil_iff.mpr hall]
  simp [hne]

theorem chompDigits_append (x : List Char) (c : Char) (r : List Char)
    (hne : x.isEmpty = false) (hall : ∀ d ∈ x, d.isDigit) (hc : c.isDigit = false) :
    chompDigits (x ++ c :: r) = some (x, c :: r) := by
  unfold chompDigits
  rw [takeWhile_append_stop _ x c r hall hc, dropWhile_append_stop _ x c r hall hc]
  simp [hne]

theorem matchXYZrest_exact (x y z : List Char)
    (hx : digitsOnly x = true) (hy : digitsOnly y = true) (hz : digitsOnly z = true) :
    matchXYZrest (xyzChars x y z) = some (xyzChars x y z, []) := by
  obtain ⟨hxe, hxd⟩ := (digitsOnly_iff x).mp hx
  obtain ⟨hye, hyd⟩ := (digitsOnly_iff y).mp hy
  obtain ⟨hze, hzd⟩ := (digitsOnly_iff z).mp hz
  have h1 : chompDigits (x ++ '.' :: (y ++ '.' :: z)) = some (x, '.' :: (y ++ '.' :: z)) :=
    chompDigits_append x '.' _ hxe hxd (by decide)
  have h2 : chompDigits (y ++ '.' :: z) = some (y, '.' :: z) :=
    chompDigits_append y '.' _ hye hyd (by decide)
  have h3 : chompDigits z = some (z, []) := chompDigits_all z hze hzd
  unfold matchXYZrest xyzChars
  simp only [h1, h2, h3]

theorem matchXYZrest_append (x y z : List Char) (c : Char) (r : List Char)
    (hx : digitsOnly x = true) (hy : digitsOnly y = true) (hz : digitsOnly z = true)
    (hc : c.isDigit = false) :
    matchXYZrest (xyzChars x y z ++ c :: r) = some (xyzChars x y z, c :: r) := by
  obtain ⟨hxe, hxd⟩ := (digitsOnly_iff x).mp hx
  obtain ⟨hye, hyd⟩ := (digitsOnly_iff y).mp hy
  obtain ⟨hze, hzd⟩ := (digitsOnly_iff z).mp hz
  have h1 : chompDigits (x ++ '.' :: (y ++ '.' :: (z ++ c :: r))) =
      some (x, '.' :: (y ++ '.' :: (z ++ c :: r))) :=
    chompDigits_append x '.' _ hxe hxd (by decide)
  have h2 : chompDigits (y ++ '.' :: (z ++ c :: r)) = some (y, '.' :: (z ++ c :: r)) :=
    chompDigits_append y '.' _ hye hyd (by decide)
  have h3 : chompDigits (z ++ c :: r) = some (z, c :: r) :=
    chompDigits_append z c r hze hzd hc
  unfold matchXYZrest xyzChars
  simp only [List.append_assoc, List.cons_append, h1, h2, h3]

theorem matchPlusPat_exact (x y z b : List Char)
    (hx : digitsOnly x = true) (hy : digitsOnly y = true) (hz : digitsOnly z = true)
    (hb : digitsOnly b = true) :
    matchPlusPat (xyzChars x y z ++ '+' :: b) = some (xyzChars x y z, b) := by
  obtain ⟨hbe, hbd⟩ := (digitsOnly_iff b).mp hb
  have hball : b.all Char.isDigit = true := List.all_eq_true.mpr hbd
  unfold matchPlusPat
  simp [matchXYZrest_append x y z '+' b hx hy hz (by decide), hbe, hball]

theorem matchPlusPat_stop (x y z : List Char) (c : Char) (r : List Char)
    (hx : digitsOnly x = true) (hy : digitsOnly y = true) (hz : digitsOnly z = true)
    (hc : c.isDigit = false) (hne : c ≠ '+') :
    matchPlusPat (xyzChars x y z ++ c :: r) = none := by
  unfold matchPlusPat
  simp [matchXYZrest_append x y z c r hx hy hz hc, hne]

theorem matchPlusPat_nil (x y z : List Char)
    (hx : digitsOnly x = true) (hy : digitsOnly y = true) (hz : digitsOnly z = true) :
    matchPlusPat (xyzChars x y z) = none := by
  unfold matchPlusPat
  simp [matchXYZrest_exact x y z hx hy hz]

theorem matchParenPat_exact (x y z b : List Char)
    (hx : digitsOnly x = true) (hy : digitsOnly y = true) (hz : digitsOnly z = true)
    (hb : digitsOnly b = true) :
    matchParenPat (xyzChars x y z ++ '(' :: (b ++ [')'])) = some (xyzChars x y z, b) := by
  obtain ⟨hbe, hbd⟩ := (digitsOnly_iff b).mp hb
  have hball : b.all Char.isDigit = true := List.all_eq_true.mpr hbd
  unfold matchParenPat
  simp [matchXYZrest_append x y z '(' (b ++ [')']) hx hy hz (by decide), hbe, hball]

theorem matchParenPat_stop (x y z : List Char) (c : Char) (r : List Char)
    (hx : digitsOnly x = true) (hy : digitsOnly y = true) (hz : digitsOnly z = true)
    (hc : c.isDigit = false) (hne : c ≠ '(') :
    matchParenPat (xyzChars x y z ++ c :: r) = none := by
  unfold matchParenPat
  simp [matchXYZrest_append x y z c r hx hy hz hc, hne]

theorem matchParenPat_nil (x y z : List Char)
    (hx : digitsOnly x = true) (hy : digitsOnly y = true) (hz : digitsOnly z = true) :
    matchParenPat (xyzChars x y z) = none := by
  unfold matchParenPat
  simp [matchXYZrest_exact x y z hx hy hz]

theorem matchBarePat_exact (x y z : List Char)
    (hx : digitsOnly x = true) (hy : digitsOnly y = true) (hz : digitsOnly z = true) :
    matchBarePat (xyzChars x y z) = true := by
  unfold matchBarePat
  simp [matchXYZrest_exact x y z hx hy hz]

/-! Reduction of `parseVersionChars` along its branches. -/

theorem parseVersionChars_of_plus (l v b : List Char) (hv : l.head? ≠ some 'v')
    (h : matchPlusPat l = some (v, b)) :
    parseVersionChars l = { version := String.mk v, buildNumber := some (String.mk b) } := by
  unfold parseVersionChars
  simp [hv, h]

theorem parseVersionChars_of_paren (l v b : List Char) (hv : l.head? ≠ some 'v')
    (hplus : matchPlusPat l = none) (h : matchParenPat l = some (v, b)) :
    parseVersionChars l = { version := String.mk v, buildNumber := some (String.mk b) } := by
  unfold parseVersionChars
  simp [hv, hplus, h]

theorem parseVersionChars_of_nomatch (l : List Char) (hv : l.head? ≠ some 'v')
    (hplus : matchPlusPat l = none) (hparen : matchParenPat l = none) :
    parseVersionChars l = { version := String.mk l } := by
  unfold parseVersionChars
  simp [hv, hplus, hparen, ite_self]

theorem parseVersionChars_cons_v (l : List Char) :
    parseVersionChars ('v' :: l) =
      (match matchPlusPat l with
       | some (v, b) => { version := String.mk v, buildNumber := some (String.mk b) }
       | none =>
         match matchParenPat l with
         | some (v, b) => { version := String.mk v, buildNumber := some (String.mk b) }
         | none => { version := String.mk l }) := by
  unfold parseVersionChars
  simp [ite_self]

theorem digit_head_ne_v (d : Char) (hd : d.isDigit = true) : d ≠ 'v' := by
  intro h
  rw [h] at hd
  exact absurd hd (by decide)

theorem xyz_head_ne_v (x y z : List Char) (hx : digitsOnly x = true) :
    (xyzChars x y z).head? ≠ some 'v' := by
  obtain ⟨hxe, hxd⟩ := (digitsOnly_iff x).mp hx
  cases x with
  | nil => simp at hxe
  | cons d x' =>
    have hd := digit_head_ne_v d (hxd d (List.mem_cons_self d x'))
    simp [xyzChars, hd]

theorem xyz_append_head_ne_v (x y z : List Char) (c : Char) (r : List Char)
    (hx : digitsOnly x = true) :
    (xyzChars x y z ++ c :: r).head? ≠ some 'v' := by
  obtain ⟨hxe, hxd⟩ := (digitsOnly_iff x).mp hx
  cases x with
  | nil => simp at hxe
  | cons d x' =>
    have hd := digit_head_ne_v d (hxd d (List.mem_cons_self d x'))
    simp [xyzChars, hd]

/-! `parseVersion` on each supported form. -/

theorem parseVersion_plusForm (x y z b : List Char)
    (hx : digitsOnly x = true) (hy : digitsOnly y = true) (hz : digitsOnly z = true)
    (hb : digitsOnly b = true) :
    parseVersion (String.mk (xyzChars x y z ++ '+' :: b)) =
      { version := String.mk (xyzChars x y z), buildNumber := some (String.mk b) } := by
  show parseVersionChars (xyzChars x y z ++ '+' :: b) = _
  exact parseVersionChars_of_plus _ _ _ (xyz_append_head_ne_v x y z '+' b hx)
    (matchPlusPat_exact x y z b hx hy hz hb)

theorem parseVersion_vPlusForm (x y z b : List Char)
    (hx : digitsOnly x = true) (hy : digitsOnly y = true) (hz : digitsOnly z = true)
    (hb : digitsOnly b = true) :
    parseVersion (String.mk ('v' :: (xyzChars x y z ++ '+' :: b))) =
      { version := String.mk (xyzChars x y z), buildNumber := some (String.mk b) } := by
  show parseVersionChars ('v' :: (xyzChars x y z ++ '+' :: b)) = _
  rw [parseVersionChars_cons_v, matchPlusPat_exact x y z b hx hy hz hb]

theorem parseVersion_parenForm (x y z b : List Char)
    (hx : digitsOnly x = true) (hy : digitsOnly y = true) (hz : digitsOnly z = true)
    (hb : digitsOnly b = true) :
    parseVersion (String.mk (xyzChars x y z ++ '(' :: (b ++ [')']))) =
      { version := String.mk (xyzChars x y z), buildNumber := some (String.mk b) } := by
  show parseVersionChars (xyzChars x y z ++ '(' :: (b ++ [')'])) = _
  exact parseVersionChars_of_paren _ _ _ (xyz_append_head_ne_v x y z '(' _ hx)
    (matchPlusPat_stop x y z '(' _ hx hy hz (by decide) (by decide))
    (matchParenPat_exact x y z b hx hy hz hb)

theorem parseVersion_vParenForm (x y z b : List Char)
    (hx : digitsOnly x = true) (hy : digitsOnly y = true) (hz : digitsOnly z = true)
    (hb : digitsOnly b = true) :
    parseVersion (String.mk ('v' :: (xyzChars x y z ++ '(' :: (b ++ [')'])))) =
      { version := String.mk (xyzChars x y z), buildNumber := some (String.mk b) } := by
  show parseVersionChars ('v' :: (xyzChars x y z ++ '(' :: (b ++ [')']))) = _
  rw [parseVersionChars_cons_v,
    matchPlusPat_stop x y z '(' _ hx hy hz (by decide) (by decide),
    matchParenPat_exact x y z b hx hy hz hb]

theorem parseVersion_bareForm (x y z : List Char)
    (hx : digitsOnly x = true) (hy : digitsOnly y = true) (hz : digitsOnly z = true) :
    parseVersion (String.mk (xyzChars x y z)) =
      { version := String.mk (xyzChars x y z), buildNumber := none } := by
  show parseVersionChars (xyzChars x y z) = _
  exact parseVersionChars_of_nomatch _ (xyz_head_ne_v x y z hx)
    (matchPlusPat_nil x y z hx hy hz) (matchParenPat_nil x y z hx hy hz)

theorem parseVersion_vBareForm (x y z : List Char)
    (hx : digitsOnly x = true) (hy : digitsOnly y = true) (hz : digitsOnly z = true) :
    parseVersion (String.mk ('v' :: xyzChars x y z)) =
      { version := String.mk (xyzChars x y z), buildNumber := none } := by
  show parseVersionChars ('v' :: xyzChars x y z) = _
  rw [parseVersionChars_cons_v, matchPlusPat_nil x y z hx hy hz,
    matchParenPat_nil x y z hx hy hz]

theorem parseVersion_nomatch (s : String)
    (hplus : matchPlusPat (stripLeadingV s).data = none)
    (hparen : matchParenPat (stripLeadingV s).data = none) :
    parseVersion s = { version := stripLeadingV s, buildNumber := none } := by
  by_cases hv : s.data.head? = some 'v'
  · obtain ⟨l, hl⟩ : ∃ l, s.data = 'v' :: l := by
      cases hsd : s.data with
      | nil => rw [hsd] at hv; simp at hv
      | cons c t =>
        rw [hsd] at hv
        simp only [List.head?_cons, Option.some_inj] at hv
        exact ⟨t, by rw [hv]⟩
    have hstrip : stripLeadingV s = String.mk l := by
      simp [stripLeadingV, hv, hl]
    rw [hstrip] at hplus hparen
    show parseVersionChars s.data = _
    rw [hl, parseVersionChars_cons_v]
    rw [show (String.mk l).data = l from rfl] at hplus hparen
    rw [hplus, hparen, hstrip]
  · have hstrip : stripLeadingV s = s := by simp [stripLeadingV, hv]
    rw [hstrip] at hplus hparen
    show parseVersionChars s.data = _
    rw [parseVersionChars_of_nomatch s.data hv hplus hparen, hstrip]

/-- `formatVersion` of a nonempty build number, at the character level. -/
theorem formatVersion_mk (v b : List Char) (hbe : b.isEmpty = false) :
    formatVersion (String.mk v) (some (String.mk b)) = String.mk (v ++ '+' :: b) := by
  have hstep : formatVersion (String.mk v) (some (String.mk b)) =
      if b.isEmpty = true then String.mk v else String.mk v ++ "+" ++ String.mk b := rfl
  rw [hstep, hbe]
  simp only [Bool.false_eq_true, if_false]
  show String.mk ((v ++ ['+']) ++ b) = _
  simp [List.append_assoc]

/-- C2 counterexample: the claim says a leading `'v'` or `'V'` is
stripped, but `versionString.startsWith('v')` is case-sensitive, so
`"V1.0.0+20"` is not normalized and falls through to the raw-version
path instead of parsing as version `1.0.0` build `20`. -/
theorem C2_counterexample :
    parseVersion "V1.0.0+20" = { version := "V1.0.0+20", buildNumber := none } ∧
    parseVersion "V1.0.0+20" ≠ { version := "1.0.0", buildNumber := some "20" } := by
  decide

/-- C2 (amended): for every input of one of the forms `X.Y.Z`, `X.Y.Z+B`,
`vX.Y.Z+B`, `X.Y.Z(B)`, `vX.Y.Z(B)` with a *lowercase* `'v'` prefix
(X, Y, Z, B digits only), `parseVersion` returns
`{version: X.Y.Z, buildNumber: B}` (buildNumber absent for the bare
forms), stripping a leading lowercase `'v'` only; every input matching
none of the patterns returns `{version: input with a leading lowercase
'v' stripped}` with no buildNumber (the parser is a total function and
never throws). -/
theorem C2_amended (x y z b : List Char) (s : String)
    (hx : digitsOnly x = true) (hy : digitsOnly y = true) (hz : digitsOnly z = true)
    (hb : digitsOnly b = true)
    (hplus : matchPlusPat (stripLeadingV s).data = none)
    (hparen : matchParenPat (stripLeadingV s).data = none) :
    parseVersion (String.mk (xyzChars x y z)) =
      { version := String.mk (xyzChars x y z), buildNumber := none } ∧
    parseVersion (String.mk ('v' :: xyzChars x y z)) =
      { version := String.mk (xyzChars x y z), buildNumber := none } ∧
    parseVersion (String.mk (xyzChars x y z ++ '+' :: b)) =
      { version := String.mk (xyzChars x y z), buildNumber := some (String.mk b) } ∧
    parseVersion (String.mk ('v' :: (xyzChars x y z ++ '+' :: b))) =
      { version := String.mk (xyzChars x y z), buildNumber := some (String.mk b) } ∧
    parseVersion (String.mk (xyzChars x y z ++ '(' :: (b ++ [')']))) =
      { version := String.mk (xyzChars x y z), buildNumber := some (String.mk b) } ∧
    parseVersion (String.mk ('v' :: (xyzChars x y z ++ '(' :: (b ++ [')'])))) =
      { version := String.mk (xyzChars x y z), buildNumber := some (String.mk b) } ∧
    parseVersion s = { version := stripLeadingV s, buildNumber := none } :=
  ⟨parseVersion_bareForm x y z hx hy hz,
   parseVersion_vBareForm x y z hx hy hz,
   parseVersion_plusForm x y z b hx hy hz hb,
   parseVersion_vPlusForm x y z b hx hy hz hb,
   parseVersion_parenForm x y z b hx hy hz hb,
   parseVersion_vParenForm x y z b hx hy hz hb,
   parseVersion_nomatch s hplus hparen⟩

/-- Witness for C2 (amended) at `X.Y.Z+B = 1.2.3+45` (v-prefixed) and the
non-matching input `"not-a-version"`. -/
theorem C2_amended_witness :
    parseVersion "v1.2.3+45" = { version := "1.2.3", buildNumber := some "45" } ∧
    parseVersion "not-a-version" = { version := "not-a-version", buildNumber := none } := by
  have h := C2_amended ['1'] ['2'] ['3'] ['4', '5'] "not-a-version"
    (by decide) (by decide) (by decide) (by decide) (by decide) (by decide)
  exact ⟨h.2.2.2.1, h.2.2.2.2.2.2⟩

/-- C10: on every supported form, formatting the parsed
(version, buildNumber) pair and re-parsing reproduces exactly the same
pair — `parse ∘ format ∘ parse = parse` on supported forms, hence parse
and format round-trip. -/
theorem C10_roundtrip (x y z b : List Char)
    (hx : digitsOnly x = true) (hy : digitsOnly y = true) (hz : digitsOnly z = true)
    (hb : digitsOnly b = true) :
    ∀ s ∈ supportedForms x y z b,
      parseVersion (formatVersion (parseVersion s).version (parseVersion s).buildNumber) =
        parseVersion s := by
  have hbe : b.isEmpty = false := ((digitsOnly_iff b).mp hb).1
  intro s hs
  simp only [supportedForms, List.mem_cons, List.not_mem_nil, or_false] at hs
  rcases hs with rfl | rfl | rfl | rfl | rfl | rfl
  · rw [parseVersion_bareForm x y z hx hy hz]
    exact parseVersion_bareForm x y z hx hy hz
  · rw [parseVersion_vBareForm x y z hx hy hz]
    exact parseVersion_bareForm x y z hx hy hz
  · rw [parseVersion_plusForm x y z b hx hy hz hb]
    show parseVersion (formatVersion (String.mk (xyzChars x y z)) (some (String.mk b))) = _
    rw [formatVersion_mk _ _ hbe]
    exact parseVersion_plusForm x y z b hx hy hz hb
  · rw [parseVersion_vPlusForm x y z b hx hy hz hb]
    show parseVersion (formatVersion (String.mk (xyzChars x y z)) (some (String.mk b))) = _
    rw [formatVersion_mk _ _ hbe]
    exact parseVersion_plusForm x y z b hx hy hz hb
  · rw [parseVersion_parenForm x y z b hx hy hz hb]
    show parseVersion (formatVersion (String.mk (xyzChars x y z)) (some (String.mk b))) = _
    rw [formatVersion_mk _ _ hbe]
    exact parseVersion_plusForm x y z b hx hy hz hb
  · rw [parseVersion_vParenForm x y z b hx hy hz hb]
    show parseVersion (formatVersion (String.mk (xyzChars x y z)) (some (String.mk b))) = _
    rw [formatVersion_mk _ _ hbe]
    exact parseVersion_plusForm x y z b hx hy hz hb

/-- Witness for C10 at the supported form `1.0.0(20)`. -/
theorem C10_roundtrip_witness :
    parseVersion (formatVersion (parseVersion "1.0.0(20)").version
        (parseVersion "1.0.0(20)").buildNumber) =
      parseVersion "1.0.0(20)" := by
  have h := C10_roundtrip ['1'] ['0'] ['0'] ['2', '0']
    (by decide) (by decide) (by decide) (by decide)
  exact h "1.0.0(20)" (by decide)

theorem one_le_limitOrDefault (o : Option Nat) : 1 ≤ limitOrDefault o := by
  cases o with
  | none => simp [limitOrDefault]
  | some n =>
    simp only [limitOrDefault]
    split <;> omega

theorem ascArtifactsLoop_eq (opts : SearchOptions) (bn cd : String)
    (arts : List CiArtifactRec) (acc : List Artifact)
    (hacc : acc.length < limitOrDefault opts.limit) :
    ascArtifactsLoop opts bn cd arts acc =
      if limitOrDefault opts.limit ≤ (acc ++ ascMatchedOfArtifacts opts bn cd arts).length then
        LoopRes.done ((acc ++ ascMatchedOfArtifacts opts bn cd arts).take
          (limitOrDefault opts.limit))
      else LoopRes.cont (acc ++ ascMatchedOfArtifacts opts bn cd arts) := by
  induction arts generalizing acc with
  | nil =>
    simp only [ascArtifactsLoop, ascMatchedOfArtifacts, List.filter_nil, List.map_nil,
      List.append_nil]
    rw [if_neg (by omega)]
  | cons a rest ih =>
    by_cases hskip : ascTypeSkip opts.artifactType (classifyFileName a.fileName) = true
    · have hm : ascMatchedOfArtifacts opts bn cd (a :: rest) =
          ascMatchedOfArtifacts opts bn cd rest := by
        simp [ascMatchedOfArtifacts, List.filter_cons, hskip]
      have hloop : ascArtifactsLoop opts bn cd (a :: rest) acc =
          ascArtifactsLoop opts bn cd rest acc := by
        simp [ascArtifactsLoop, hskip]
      rw [hloop, hm]
      exact ih acc hacc
    · have hskip' : ascTypeSkip opts.artifactType (classifyFileName a.fileName) = false :=
        Bool.eq_false_iff.mpr hskip
      have hm : ascMatchedOfArtifacts opts bn cd (a :: rest) =
          ascMkArtifact opts bn cd a :: ascMatchedOfArtifacts opts bn cd rest := by
        simp [ascMatchedOfArtifacts, List.filter_cons, hskip']
      have hloop : ascArtifactsLoop opts bn cd (a :: rest) acc =
          if limitOrDefault opts.limit ≤ (acc ++ [ascMkArtifact opts bn cd a]).length then
            LoopRes.done ((acc ++ [ascMkArtifact opts bn cd a]).take (limitOrDefault opts.limit))
          else ascArtifactsLoop opts bn cd rest (acc ++ [ascMkArtifact opts bn cd a]) := by
        simp [ascArtifactsLoop, hskip']
      have hassoc :
          acc ++ ascMkArtifact opts bn cd a :: ascMatchedOfArtifacts opts bn cd rest =
            (acc ++ [ascMkArtifact opts bn cd a]) ++ ascMatchedOfArtifacts opts bn cd rest := by
        simp
      rw [hloop, hm, hassoc]
      by_cases hfull :
          limitOrDefault opts.limit ≤ (acc ++ [ascMkArtifact opts bn cd a]).length
      · have hlen : (acc ++ [ascMkArtifact opts bn cd a]).length = limitOrDefault opts.limit := by
          simp only [List.length_append, List.length_cons, List.length_nil] at hfull ⊢
          omega
        have hcond2 : limitOrDefault opts.limit ≤
            ((acc ++ [ascMkArtifact opts bn cd a]) ++
              ascMatchedOfArtifacts opts bn cd rest).length := by
          simp only [List.length_append] at hfull ⊢
          omega
        rw [if_pos hfull, if_pos hcond2]
        congr 1
        have hsplit :
            ((acc ++ [ascMkArtifact opts bn cd a]) ++
                ascMatchedOfArtifacts opts bn cd rest).take (limitOrDefault opts.limit) =
              (acc ++ [ascMkArtifact opts bn cd a]).take (limitOrDefault opts.limit) ++
                (ascMatchedOfArtifacts opts bn cd rest).take
                  (limitOrDefault opts.limit - (acc ++ [ascMkArtifact opts bn cd a]).length) :=
          List.take_append_eq_append_take
        rw [hsplit, hlen, Nat.sub_self, List.take_zero, List.append_nil]
      · rw [if_neg hfull]
        have hacc' : (acc ++ [ascMkArtifact opts bn cd a]).length <
            limitOrDefault opts.limit := by
          simp only [List.length_append, List.length_cons, List.length_nil] at hfull ⊢
          omega
        rw [ih _ hacc']

theorem ascActionsLoop_eq (opts : SearchOptions) (bn cd : String)
    (acts : List CiAction) (acc : List Artifact)
    (hacc : acc.length < limitOrDefault opts.limit) :
    ascActionsLoop opts bn cd acts acc =
      if limitOrDefault opts.limit ≤
          (acc ++ acts.flatMap fun act =>
            ascMatchedOfArtifacts opts bn cd act.artifacts).length then
        LoopRes.done ((acc ++ acts.flatMap fun act =>
          ascMatchedOfArtifacts opts bn cd act.artifacts).take (limitOrDefault opts.limit))
      else
        LoopRes.cont (acc ++ acts.flatMap fun act =>
          ascMatchedOfArtifacts opts bn cd act.artifacts) := by
  induction acts generalizing acc with
  | nil =>
    simp only [ascActionsLoop, List.flatMap_nil, List.append_nil]
    rw [if_neg (by omega)]
  | cons act rest ih =>
    have hstep : ascActionsLoop opts bn cd (act :: rest) acc =
        match ascArtifactsLoop opts bn cd act.artifacts acc with
        | .done r => .done r
        | .cont acc' => ascActionsLoop opts bn cd rest acc' := rfl
    rw [hstep, ascArtifactsLoop_eq opts bn cd act.artifacts acc hacc,
      List.flatMap_cons]
    by_cases hfull : limitOrDefault opts.limit ≤
        (acc ++ ascMatchedOfArtifacts opts bn cd act.artifacts).length
    · rw [if_pos hfull]
      have hassoc :
          acc ++ (ascMatchedOfArtifacts opts bn cd act.artifacts ++
              rest.flatMap fun a => ascMatchedOfArtifacts opts bn cd a.artifacts) =
            (acc ++ ascMatchedOfArtifacts opts bn cd act.artifacts) ++
              rest.flatMap fun a => ascMatchedOfArtifacts opts bn cd a.artifacts := by
        simp
      rw [hassoc]
      have hcond2 : limitOrDefault opts.limit ≤
          ((acc ++ ascMatchedOfArtifacts opts bn cd act.artifacts) ++
            rest.flatMap fun a => ascMatchedOfArtifacts opts bn cd a.artifacts).length := by
        simp only [List.length_append] at hfull ⊢
        omega
      rw [if_pos hcond2, List.take_append_of_le_length hfull]
    · rw [if_neg hfull]
      have hacc' : (acc ++ ascMatchedOfArtifacts opts bn cd act.artifacts).length <
          limitOrDefault opts.limit := Nat.lt_of_not_le hfull
      change ascActionsLoop opts bn cd rest
        (acc ++ ascMatchedOfArtifacts opts bn cd act.artifacts) = _
      rw [ih _ hacc', List.append_assoc]

theorem ascBuildRunsLoop_eq (opts : SearchOptions)
    (runs : List CiBuildRun) (acc : List Artifact)
    (hacc : acc.length < limitOrDefault opts.limit) :
    ascBuildRunsLoop opts runs acc =
      if limitOrDefault opts.limit ≤ (acc ++ ascMatchedArtifacts opts runs).length then
        LoopRes.done ((acc ++ ascMatchedArtifacts opts runs).take (limitOrDefault opts.limit))
      else LoopRes.cont (acc ++ ascMatchedArtifacts opts runs) := by
  induction runs generalizing acc with
  | nil =>
    simp only [ascBuildRunsLoop, ascMatchedArtifacts, List.flatMap_nil, List.append_nil]
    rw [if_neg (by omega)]
  | cons br rest ih =>
    by_cases hskip : buildNumberSkip opts.buildNumber (toString br.number) = true
    · have hm : ascMatchedArtifacts opts (br :: rest) = ascMatchedArtifacts opts rest := by
        simp only [ascMatchedArtifacts, List.flatMap_cons, hskip, if_true,
          List.nil_append]
      have hloop : ascBuildRunsLoop opts (br :: rest) acc =
          ascBuildRunsLoop opts rest acc := by
        simp [ascBuildRunsLoop, hskip]
      rw [hloop, hm]
      exact ih acc hacc
    · have hskip' : buildNumberSkip opts.buildNumber (toString br.number) = false :=
        Bool.eq_false_iff.mpr hskip
      have hm : ascMatchedArtifacts opts (br :: rest) =
          ((br.actions.filter fun action => action.actionType == "ARCHIVE").flatMap fun act =>
            ascMatchedOfArtifacts opts (toString br.number) br.createdDate act.artifacts) ++
          ascMatchedArtifacts opts rest := by
        simp only [ascMatchedArtifacts, List.flatMap_cons, hskip']
        simp
      have hloop : ascBuildRunsLoop opts (br :: rest) acc =
          match ascActionsLoop opts (toString br.number) br.createdDate
              (br.actions.filter fun action => action.actionType == "ARCHIVE") acc with
          | .done r => .done r
          | .cont acc' => ascBuildRunsLoop opts rest acc' := by
        simp [ascBuildRunsLoop, hskip']
      rw [hloop, hm,
        ascActionsLoop_eq opts (toString br.number) br.createdDate _ acc hacc]
      by_cases hfull : limitOrDefault opts.limit ≤
          (acc ++ (br.actions.filter fun action => action.actionType == "ARCHIVE").flatMap
            (fun act => ascMatchedOfArtifacts opts (toString br.number) br.createdDate
              act.artifacts)).length
      · rw [if_pos hfull]
        have hassoc :
            acc ++ (((br.actions.filter fun action => action.actionType == "ARCHIVE").flatMap
                fun act => ascMatchedOfArtifacts opts (toString br.number) br.createdDate
                  act.artifacts) ++ ascMatchedArtifacts opts rest) =
              (acc ++ (br.actions.filter fun action => action.actionType == "ARCHIVE").flatMap
                fun act => ascMatchedOfArtifacts opts (toString br.number) br.createdDate
                  act.artifacts) ++ ascMatchedArtifacts opts rest := by
          simp
        rw [hassoc]
        have hcond2 : limitOrDefault opts.limit ≤
            ((acc ++ (br.actions.filter fun action => action.actionType == "ARCHIVE").flatMap
              fun act => ascMatchedOfArtifacts opts (toString br.number) br.createdDate
                act.artifacts) ++ ascMatchedArtifacts opts rest).length := by
          simp only [List.length_append] at hfull ⊢
          omega
        rw [if_pos hcond2, List.take_append_of_le_length hfull]
      · rw [if_neg hfull]
        have hacc' :
            (acc ++ (br.actions.filter fun action => action.actionType == "ARCHIVE").flatMap
              (fun act => ascMatchedOfArtifacts opts (toString br.number) br.createdDate
                act.artifacts)).length < limitOrDefault opts.limit :=
          Nat.lt_of_not_le hfull
        change ascBuildRunsLoop opts rest
          (acc ++ (br.actions.filter fun action => action.actionType == "ARCHIVE").flatMap
            fun act => ascMatchedOfArtifacts opts (toString br.number) br.createdDate
              act.artifacts) = _
        rw [ih _ hacc', List.append_assoc]

/-- `AppStoreConnectProvider.search` returns exactly the first `limit`
matching artifacts of the `max(3*limit, 20)`-deep build-run window, in
stream (newest-first) order. -/
theorem ascSearch_eq (u : AscUpstream) (opts : SearchOptions) (product : CiProduct)
    (hfind : u.products.find? (fun p => p.name == opts.appId) = some product) :
    ascSearch u opts =
      .ok ((ascMatchedArtifacts opts ((u.buildRuns product.id).take
        (max (limitOrDefault opts.limit * 3) 20))).take (limitOrDefault opts.limit)) := by
  have hstep : ascSearch u opts =
      (match ascBuildRunsLoop opts ((u.buildRuns product.id).take
          (max (limitOrDefault opts.limit * 3) 20)) [] with
       | .done r => Except.ok r
       | .cont acc => Except.ok acc) := by
    unfold ascSearch
    rw [hfind]
  have h0 : ([] : List Artifact).length < limitOrDefault opts.limit := by
    simpa using one_le_limitOrDefault opts.limit
  rw [hstep, ascBuildRunsLoop_eq opts _ [] h0]
  by_cases hfull : limitOrDefault opts.limit ≤
      (([] : List Artifact) ++ ascMatchedArtifacts opts ((u.buildRuns product.id).take
        (max (limitOrDefault opts.limit * 3) 20))).length
  · rw [if_pos hfull]
    simp only [List.nil_append]
  · rw [if_neg hfull]
    simp only [List.nil_append] at hfull ⊢
    rw [List.take_of_length_le (Nat.le_of_lt (Nat.lt_of_not_le hfull))]

/-- The product-not-found path of `ascSearch`. -/
theorem ascSearch_find_none (u : AscUpstream) (opts : SearchOptions)
    (hfind : u.products.find? (fun p => p.name == opts.appId) = none) :
    ascSearch u opts = .error ("Product " ++ opts.appId ++ " not found in Xcode Cloud.") := by
  unfold ascSearch
  rw [hfind]

/-! ## Lemmas: the version filter of the App Store Connect search only
relabels -/

theorem ascMkArtifact_version (opts : SearchOptions) (v : String)
    (hv : v.data.isEmpty = false) (hver : opts.version = some v)
    (bn cd : String) (a : CiArtifactRec) :
    ascMkArtifact opts bn cd a =
      { ascMkArtifact { opts with version := none } bn cd a with version := v } := by
  unfold ascMkArtifact
  rw [hver]
  simp [hv]

theorem ascMatchedOfArtifacts_version (opts : SearchOptions) (v : String)
    (hv : v.data.isEmpty = false) (hver : opts.version = some v)
    (bn cd : String) (arts : List CiArtifactRec) :
    ascMatchedOfArtifacts opts bn cd arts =
      (ascMatchedOfArtifacts { opts with version := none } bn cd arts).map
        (fun a => { a with version := v }) := by
  unfold ascMatchedOfArtifacts
  rw [List.map_map]
  exact List.map_congr_left fun a _ => ascMkArtifact_version opts v hv hver bn cd a

theorem ascMatchedArtifacts_version (opts : SearchOptions) (v : String)
    (hv : v.data.isEmpty = false) (hver : opts.version = some v)
    (runs : List CiBuildRun) :
    ascMatchedArtifacts opts runs =
      (ascMatchedArtifacts { opts with version := none } runs).map
        (fun a => { a with version := v }) := by
  unfold ascMatchedArtifacts
  rw [List.map_flatMap]
  refine List.flatMap_congr fun br _ => ?_
  by_cases hskip : buildNumberSkip opts.buildNumber (toString br.number) = true
  · simp only [hskip, if_true, List.map_nil]
  · simp only [hskip, if_false, Bool.false_eq_true, List.map_flatMap]
    exact List.flatMap_congr fun act _ =>
      ascMatchedOfArtifacts_version opts v hv hver (toString br.number) br.createdDate
        act.artifacts

/-- A truthy version filter performs no comparison at all in
`AppStoreConnectProvider.search`: the result is the filter-free result
with every artifact's `version` field overwritten by the requested
string. -/
theorem ascSearch_version_map (u : AscUpstream) (opts : SearchOptions) (v : String)
    (hv : v.data.isEmpty = false) (hver : opts.version = some v) :
    ascSearch u opts =
      Except.map (List.map fun a => { a with version := v })
        (ascSearch u { opts with version := none }) := by
  cases hfind : u.products.find? (fun p => p.name == opts.appId) with
  | none =>
    rw [ascSearch_find_none u opts hfind,
      ascSearch_find_none u { opts with version := none } hfind]
    rfl
  | some product =>
    rw [ascSearch_eq u opts product hfind,
      ascSearch_eq u { opts with version := none } product hfind]
    show Except.ok _ = Except.ok _
    rw [ascMatchedArtifacts_version opts v hv hver, List.map_take]

/-! ## Lemmas: the `'ipa'` equivalence class of the type filter -/

theorem ascTypeSkip_ipa_iff (ty : String) :
    ascTypeSkip (some "ipa") ty = false ↔
      (ty = "development" ∨ ty = "ad_hoc" ∨ ty = "app_store" ∨ ty = "ipa") := by
  simp only [ascTypeSkip, show (("ipa" : String).data.isEmpty) = false from rfl,
    show (("ipa" : String) == "ipa") = true from rfl, Bool.true_and, Bool.false_eq_true,
    if_false]
  by_cases hc : ipaTypes.contains ty = true
  · simp only [hc, if_true]
    have hmem : ty = "development" ∨ ty = "ad_hoc" ∨ ty = "app_store" := by
      simpa [ipaTypes] using hc
    simp only [true_iff]
    tauto
  · simp only [hc, if_false]
    constructor
    · intro h
      have : ty = "ipa" := by simpa using h
      tauto
    · rintro (h | h | h | h)
      · exact absurd (by simp [ipaTypes, h]) hc
      · exact absurd (by simp [ipaTypes, h]) hc
      · exact absurd (by simp [ipaTypes, h]) hc
      · simp [h]

theorem mem_ascMatchedOfArtifacts (opts : SearchOptions) (bn cd : String)
    (arts : List CiArtifactRec) (a : Artifact)
    (ha : a ∈ ascMatchedOfArtifacts opts bn cd arts) :
    ascTypeSkip opts.artifactType a.artifactType = false := by
  unfold ascMatchedOfArtifacts at ha
  simp only [List.mem_map, List.mem_filter] at ha
  obtain ⟨rec, ⟨_, hpass⟩, rfl⟩ := ha
  have hskip : ascTypeSkip opts.artifactType (classifyFileName rec.fileName) = false := by
    simpa using hpass
  simpa [ascMkArtifact] using hskip

theorem mem_ascMatchedArtifacts_typeSkip (opts : SearchOptions)
    (runs : List CiBuildRun) (a : Artifact) (ha : a ∈ ascMatchedArtifacts opts runs) :
    ascTypeSkip opts.artifactType a.artifactType = false := by
  unfold ascMatchedArtifacts at ha
  simp only [List.mem_flatMap] at ha
  obtain ⟨br, _, ha⟩ := ha
  split at ha
  · simp at ha
  · simp only [List.mem_flatMap] at ha
    obtain ⟨act, _, ha⟩ := ha
    exact mem_ascMatchedOfArtifacts _ _ _ _ _ ha

theorem ascSearch_ok_typeSkip (u : AscUpstream) (opts : SearchOptions)
    (arts : List Artifact) (hok : ascSearch u opts = .ok arts)
    (a : Artifact) (ha : a ∈ arts) :
    ascTypeSkip opts.artifactType a.artifactType = false := by
  cases hfind : u.products.find? (fun p => p.name == opts.appId) with
  | none => rw [ascSearch_find_none u opts hfind] at hok; exact absurd hok (by simp)
  | some product =>
    rw [ascSearch_eq u opts product hfind] at hok
    have harts := (Except.ok.injEq _ _).mp hok.symm
    exact mem_ascMatchedArtifacts_typeSkip opts _ a
      (List.mem_of_mem_take (harts ▸ ha))

theorem fbReleasesLoop_eq (opts : SearchOptions) (app : FirebaseApp)
    (rels : List FbRelease) (acc : List Artifact)
    (hacc : acc.length < limitOrDefault opts.limit) :
    fbReleasesLoop opts app rels acc =
      if limitOrDefault opts.limit ≤ (acc ++ fbMatchedReleases opts app rels).length then
        (acc ++ fbMatchedReleases opts app rels).take (limitOrDefault opts.limit)
      else acc ++ fbMatchedReleases opts app rels := by
  induction rels generalizing acc with
  | nil =>
    simp only [fbReleasesLoop, fbMatchedReleases, List.filter_nil, List.map_nil,
      List.append_nil]
    rw [if_neg (by omega)]
  | cons rel rest ih =>
    by_cases h1 : buildNumberSkip opts.buildNumber rel.buildVersion = true
    · have hm : fbMatchedReleases opts app (rel :: rest) = fbMatchedReleases opts app rest := by
        simp [fbMatchedReleases, List.filter_cons, h1]
      have hloop : fbReleasesLoop opts app (rel :: rest) acc =
          fbReleasesLoop opts app rest acc := by
        simp [fbReleasesLoop, h1]
      rw [hloop, hm]
      exact ih acc hacc
    · by_cases h2 : fbVersionSkip opts.version rel.displayVersion = true
      · have hm : fbMatchedReleases opts app (rel :: rest) =
            fbMatchedReleases opts app rest := by
          simp [fbMatchedReleases, List.filter_cons, h1, h2]
        have hloop : fbReleasesLoop opts app (rel :: rest) acc =
            fbReleasesLoop opts app rest acc := by
          simp [fbReleasesLoop, h1, h2]
        rw [hloop, hm]
        exact ih acc hacc
      · by_cases h3 : fbTypeSkip opts.artifactType (determineArtifactType app) = true
        · have hm : fbMatchedReleases opts app (rel :: rest) =
              fbMatchedReleases opts app rest := by
            simp [fbMatchedReleases, List.filter_cons, h1, h2, h3]
          have hloop : fbReleasesLoop opts app (rel :: rest) acc =
              fbReleasesLoop opts app rest acc := by
            simp [fbReleasesLoop, h1, h2, h3]
          rw [hloop, hm]
          exact ih acc hacc
        · have hm : fbMatchedReleases opts app (rel :: rest) =
              fbMkArtifact app rel :: fbMatchedReleases opts app rest := by
            simp [fbMatchedReleases, List.filter_cons, h1, h2, h3]
          have hloop : fbReleasesLoop opts app (rel :: rest) acc =
              if limitOrDefault opts.limit ≤ (acc ++ [fbMkArtifact app rel]).length then
                acc ++ [fbMkArtifact app rel]
              else fbReleasesLoop opts app rest (acc ++ [fbMkArtifact app rel]) := by
            simp [fbReleasesLoop, h1, h2, h3]
          have hassoc :
              acc ++ fbMkArtifact app rel :: fbMatchedReleases opts app rest =
                (acc ++ [fbMkArtifact app rel]) ++ fbMatchedReleases opts app rest := by
            simp
          rw [hloop, hm, hassoc]
          by_cases hfull :
              limitOrDefault opts.limit ≤ (acc ++ [fbMkArtifact app rel]).length
          · have hlen : (acc ++ [fbMkArtifact app rel]).length = limitOrDefault opts.limit := by
              simp only [List.length_append, List.length_cons, List.length_nil] at hfull ⊢
              omega
            have hcond2 : limitOrDefault opts.limit ≤
                ((acc ++ [fbMkArtifact app rel]) ++ fbMatchedReleases opts app rest).length := by
              simp only [List.length_append] at hfull ⊢
              omega
            rw [if_pos hfull, if_pos hcond2]
            have hsplit :
                ((acc ++ [fbMkArtifact app rel]) ++
                    fbMatchedReleases opts app rest).take (limitOrDefault opts.limit) =
                  (acc ++ [fbMkArtifact app rel]).take (limitOrDefault opts.limit) ++
                    (fbMatchedReleases opts app rest).take
                      (limitOrDefault opts.limit - (acc ++ [fbMkArtifact app rel]).length) :=
              List.take_append_eq_append_take
            rw [hsplit, hlen, Nat.sub_self, List.take_zero, List.append_nil, ← hlen,
              List.take_length]
          · rw [if_neg hfull]
            have hacc' : (acc ++ [fbMkArtifact app rel]).length < limitOrDefault opts.limit := by
              simp only [List.length_append, List.length_cons, List.length_nil] at hfull ⊢
              omega
            rw [ih _ hacc']

/-- `FirebaseAppDistributionProvider.search` returns exactly the first
`limit` matching artifacts of the fixed 50-release page, in stream
(newest-first) order. -/
theorem fbSearch_eq (cfg : String) (u : FbUpstream) (opts : SearchOptions)
    (app : FirebaseApp) (pn : List Char)
    (hfind : fbFindApp cfg u opts.appId = some app)
    (hpn : (splitChar ':' app.appId.data).get? 1 = some pn)
    (hpne : pn.isEmpty = false) :
    fbSearch cfg u opts =
      .ok ((fbMatchedReleases opts app ((u.releases app.appId).take 50)).take
        (limitOrDefault opts.limit)) := by
  have hstep1 : fbSearch cfg u opts =
      (match (splitChar ':' app.appId.data).get? 1 with
       | none => Except.error ("Could not extract project number from app ID: " ++ app.appId)
       | some pn =>
         if pn.isEmpty = true then
           Except.error ("Could not extract project number from app ID: " ++ app.appId)
         else
           Except.ok ((fbReleasesLoop opts app ((u.releases app.appId).take 50) []).take
             (limitOrDefault opts.limit))) := by
    unfold fbSearch
    rw [hfind]
  have hstep2 : fbSearch cfg u opts =
      (if pn.isEmpty = true then
        Except.error ("Could not extract project number from app ID: " ++ app.appId)
      else
        Except.ok ((fbReleasesLoop opts app ((u.releases app.appId).take 50) []).take
          (limitOrDefault opts.limit))) := by
    rw [hstep1, hpn]
  have hstep : fbSearch cfg u opts =
      .ok ((fbReleasesLoop opts app ((u.releases app.appId).take 50) []).take
        (limitOrDefault opts.limit)) := by
    rw [hstep2, hpne]
    simp only [Bool.false_eq_true, if_false]
  have h0 : ([] : List Artifact).length < limitOrDefault opts.limit := by
    simpa using one_le_limitOrDefault opts.limit
  rw [hstep, fbReleasesLoop_eq opts app _ [] h0]
  by_cases hfull : limitOrDefault opts.limit ≤
      (([] : List Artifact) ++ fbMatchedReleases opts app
        ((u.releases app.appId).take 50)).length
  · rw [if_pos hfull]
    simp only [List.nil_append, List.take_take, Nat.min_self]
  · rw [if_neg hfull]
    simp only [List.nil_append]

theorem ascSearch_ok_length (u : AscUpstream) (opts : SearchOptions)
    (arts : List Artifact) (hok : ascSearch u opts = .ok arts) :
    arts.length ≤ limitOrDefault opts.limit := by
  cases hfind : u.products.find? (fun p => p.name == opts.appId) with
  | none =>
    rw [ascSearch_find_none u opts hfind] at hok
    exact absurd hok (by simp)
  | some product =>
    rw [ascSearch_eq u opts product hfind] at hok
    have h := Except.ok.inj hok
    subst h
    exact List.length_take_le _ _

theorem fbSearch_ok_length (cfg : String) (u : FbUpstream) (opts : SearchOptions)
    (arts : List Artifact) (hok : fbSearch cfg u opts = .ok arts) :
    arts.length ≤ limitOrDefault opts.limit := by
  unfold fbSearch at hok
  split at hok
  · simp at hok
  · split at hok
    · simp at hok
    · split at hok
      · simp at hok
      · have h := Except.ok.inj hok
        subst h
        exact List.length_take_le _ _

/-- C4: with an `artifactType: 'ipa'` filter, the App Store Connect search
passes an artifact iff its classified type is `development`, `ad_hoc`,
`app_store` or literal `ipa` (everything else is excluded), and on the §8
scenario stream `[ad_hoc, ad_hoc, logs, development ×5]` a `limit: 3`
search returns exactly the three newest ipa-compatible artifacts in
newest-first order, skipping the `logs` entry. -/
theorem C4_ipa_filter :
    (∀ ty : String, ascTypeSkip (some "ipa") ty = false ↔
      (ty = "development" ∨ ty = "ad_hoc" ∨ ty = "app_store" ∨ ty = "ipa")) ∧
    (∀ (u : AscUpstream) (opts : SearchOptions) (arts : List Artifact),
      opts.artifactType = some "ipa" → ascSearch u opts = .ok arts →
      ∀ a ∈ arts,
        a.artifactType = "development" ∨ a.artifactType = "ad_hoc" ∨
          a.artifactType = "app_store" ∨ a.artifactType = "ipa") ∧
    ascSearch scenarioUpstream scenarioOpts =
      .ok
        [⟨"a1", "unknown", "42", "ad_hoc", "App-ad-hoc-1.ipa", 11, "2024-01-01",
          "app-store-connect"⟩,
         ⟨"a2", "unknown", "42", "ad_hoc", "App-ad-hoc-2.ipa", 12, "2024-01-01",
          "app-store-connect"⟩,
         ⟨"a4", "unknown", "42", "development", "App-development-1.ipa", 14, "2024-01-01",
          "app-store-connect"⟩] := by
  refine ⟨ascTypeSkip_ipa_iff, ?_, by rfl⟩
  intro u opts arts htype hok a ha
  have hskip := ascSearch_ok_typeSkip u opts arts hok a ha
  rw [htype] at hskip
  exact (ascTypeSkip_ipa_iff a.artifactType).mp hskip

/-- Witness for C4: the filter admits `ad_hoc` and rejects `archive`. -/
theorem C4_ipa_filter_witness :
    ascTypeSkip (some "ipa") "ad_hoc" = false ∧
    ascTypeSkip (some "ipa") "archive" ≠ false := by
  have h := C4_ipa_filter
  constructor
  · exact (h.1 "ad_hoc").mpr (Or.inr (Or.inl rfl))
  · intro hfalse
    rcases (h.1 "archive").mp hfalse with h' | h' | h' | h' <;> exact absurd h' (by decide)

/-- C5 (implicit): in `AppStoreConnectProvider.search`, a supplied
(truthy) version filter never excludes any artifact — no comparison is
made between it and any artifact's own version — and every returned
artifact's `version` field is set to the requested string; a by-version
search against this adapter therefore returns the newest artifacts
satisfying only the buildNumber and artifactType filters. -/
theorem C5_version_filter_no_op (u : AscUpstream) (opts : SearchOptions) (v : String)
    (hv : v.data.isEmpty = false) (hver : opts.version = some v) :
    ascSearch u opts =
      Except.map (List.map fun a => { a with version := v })
        (ascSearch u { opts with version := none }) ∧
    (∀ arts, ascSearch u opts = .ok arts → ∀ a ∈ arts, a.version = v) := by
  have hmap := ascSearch_version_map u opts v hv hver
  refine ⟨hmap, ?_⟩
  intro arts hok a ha
  rw [hmap] at hok
  cases hbase : ascSearch u { opts with version := none } with
  | error e => rw [hbase] at hok; exact absurd hok (by simp [Except.map])
  | ok base =>
    rw [hbase] at hok
    simp only [Except.map] at hok
    have harts : base.map (fun a => { a with version := v }) = arts := Except.ok.inj hok
    rw [← harts] at ha
    obtain ⟨a', _, rfl⟩ := List.mem_map.mp ha
    rfl

/-- Witness for C5 on the scenario upstream with requested version
`9.9.9`. -/
theorem C5_version_filter_no_op_witness :
    ascSearch scenarioUpstream { scenarioOpts with version := some "9.9.9" } =
      Except.map (List.map fun a => { a with version := "9.9.9" })
        (ascSearch scenarioUpstream { scenarioOpts with version := none }) := by
  have h := C5_version_filter_no_op scenarioUpstream
    { scenarioOpts with version := some "9.9.9" } "9.9.9" (by decide) rfl
  exact h.1

/-- C8 counterexample: the Firebase adapter fetches a fixed page of 50
releases, not `max(3*limit, 20)`.  With limit 17 the claimed depth is 51;
a matching release sitting at position 51 is therefore never seen and the
search returns no artifacts although the claimed over-fetch window
contains a match. -/
theorem C8_counterexample :
    max (limitOrDefault c8Opts.limit * 3) 20 = 51 ∧
    fbSearch "proj" c8Upstream c8Opts = .ok [] ∧
    fbMatchedReleases c8Opts c8App (c8Releases.take 51) ≠ [] := by
  refine ⟨by decide, by rfl, by decide⟩

/-- C8 (amended): the App Store Connect adapter over-fetches
`max(3*limit, 20)` build runs and the Firebase adapter a fixed page of 50
releases; both stop collecting as soon as `limit` matching results have
been gathered (the result is exactly the take-`limit` prefix of the
matching stream over the fetched window) and return at most `limit`
artifacts. -/
theorem C8_amended :
    (∀ (u : AscUpstream) (opts : SearchOptions) (product : CiProduct),
      u.products.find? (fun p => p.name == opts.appId) = some product →
      ascSearch u opts = .ok ((ascMatchedArtifacts opts ((u.buildRuns product.id).take
        (max (limitOrDefault opts.limit * 3) 20))).take (limitOrDefault opts.limit))) ∧
    (∀ (cfg : String) (u : FbUpstream) (opts : SearchOptions) (app : FirebaseApp)
      (pn : List Char),
      fbFindApp cfg u opts.appId = some app →
      (splitChar ':' app.appId.data).get? 1 = some pn → pn.isEmpty = false →
      fbSearch cfg u opts = .ok ((fbMatchedReleases opts app
        ((u.releases app.appId).take 50)).take (limitOrDefault opts.limit))) ∧
    (∀ (u : AscUpstream) (opts : SearchOptions) (arts : List Artifact),
      ascSearch u opts = .ok arts → arts.length ≤ limitOrDefault opts.limit) ∧
    (∀ (cfg : String) (u : FbUpstream) (opts : SearchOptions) (arts : List Artifact),
      fbSearch cfg u opts = .ok arts → arts.length ≤ limitOrDefault opts.limit) :=
  ⟨ascSearch_eq, fbSearch_eq, ascSearch_ok_length, fbSearch_ok_length⟩

/-- Witness for C8 (amended) on the §8 scenario and the 51-release
Firebase history. -/
theorem C8_amended_witness :
    ascSearch scenarioUpstream scenarioOpts =
      .ok ((ascMatchedArtifacts scenarioOpts ((scenarioUpstream.buildRuns "prod1").take
        (max (limitOrDefault scenarioOpts.limit * 3) 20))).take
        (limitOrDefault scenarioOpts.limit)) ∧
    fbSearch "proj" c8Upstream c8Opts =
      .ok ((fbMatchedReleases c8Opts c8App ((c8Upstream.releases
        "1:405:android:abc").take 50)).take (limitOrDefault c8Opts.limit)) := by
  have h := C8_amended
  exact ⟨h.1 scenarioUpstream scenarioOpts ⟨"prod1", "App"⟩ (by decide),
    h.2.1 "proj" c8Upstream c8Opts c8App "405".data (by decide) (by decide) (by decide)⟩

/-! ## C6: best-effort multi-provider discovery vs. fail-fast single
provider -/

/-- C6: under `--from all`, a provider's `listProducts` failure is
recorded as a warning and the other provider's rows are still returned;
under an explicitly requested single provider the same failure is a hard
error. -/
theorem C6_discovery_asymmetry (env : ListProductsEnv) (e : String)
    (ps : List ProductInfo) :
    (env.ascConfigValid = true → env.fbConfigValid = true →
      env.ascProducts = .error e → env.fbProducts = .ok ps →
      executeListProducts env "all" =
        .success (ps.map fun p => ⟨p.id, p.name, p.platform, "Firebase App Distribution"⟩)
          ["Failed to fetch from App Store Connect: " ++ e]) ∧
    (env.ascConfigValid = true → env.fbConfigValid = true →
      env.fbProducts = .error e → env.ascProducts = .ok ps →
      executeListProducts env "all" =
        .success (ps.map fun p => ⟨p.id, p.name, p.platform, "App Store Connect"⟩)
          ["Failed to fetch from Firebase App Distribution: " ++ e]) ∧
    (env.ascConfigValid = true → env.ascProducts = .error e →
      executeListProducts env "app-store-connect" = .hardError e) ∧
    (env.fbConfigValid = true → env.fbProducts = .error e →
      executeListProducts env "app-distribution" = .hardError e) := by
  refine ⟨?_, ?_, ?_, ?_⟩
  · intro hc1 hc2 ha hf
    simp [executeListProducts, hc1, hc2, ha, hf]
  · intro hc1 hc2 hf ha
    simp [executeListProducts, hc1, hc2, ha, hf]
  · intro hc1 ha
    simp [executeListProducts, hc1, ha,
      show (("app-store-connect" : String) == "all") = false from rfl,
      show (("app-store-connect" : String) == "app-store-connect") = true from rfl]
  · intro hc2 hf
    simp [executeListProducts, hc2, hf,
      show (("app-distribution" : String) == "all") = false from rfl,
      show (("app-distribution" : String) == "app-distribution") = true from rfl,
      show (("app-distribution" : String) == "app-store-connect") = false from rfl]

/-- Witness for C6 at a concrete environment. -/
theorem C6_discovery_asymmetry_witness :
    executeListProducts
        { ascConfigValid := true, fbConfigValid := true,
          ascProducts := .error "boom",
          fbProducts := .ok [{ id := "i", name := "n", platform := some "ios" }] } "all" =
      .success [{ id := "i", name := "n", platform := some "ios",
                  provider := "Firebase App Distribution" }]
        ["Failed to fetch from App Store Connect: boom"] ∧
    executeListProducts
        { ascConfigValid := true, fbConfigValid := true,
          ascProducts := .error "boom",
          fbProducts := .ok [{ id := "i", name := "n", platform := some "ios" }] }
        "app-store-connect" =
      .hardError "boom" := by
  have h := C6_discovery_asymmetry
    { ascConfigValid := true, fbConfigValid := true,
      ascProducts := .error "boom",
      fbProducts := .ok [{ id := "i", name := "n", platform := some "ios" }] }
    "boom" [{ id := "i", name := "n", platform := some "ios" }]
  exact ⟨h.1 rfl rfl rfl rfl, h.2.2.1 rfl rfl⟩

/-! ## C7: error propagation and the status-determined taxonomy -/

/-- C7: both adapters' `request` propagate an upstream HTTP failure
unmodified, carrying the exact status; under the spec-modelled
classification by carried status, 401 is an auth failure, 403 a
permission failure, 404 a not-found failure and every other network/HTTP
failure a transport failure; and the resolver surfaces a failing search's
error verbatim (performing no retry and no rewrapping) in every
resolution mode. -/
theorem C7_error_propagation (s : Nat) {ε : Type} (e : ε) :
    (ascRequest (α := Unit) (.httpError s) = .error (.http s) ∧
     fbRequest (α := Unit) (.httpError s) = .error (.http s) ∧
     ascRequest (α := Unit) .networkError = .error .network ∧
     fbRequest (α := Unit) .networkError = .error .network) ∧
    (specErrorKind (.http 401) = .auth ∧
     specErrorKind (.http 403) = .permission ∧
     specErrorKind (.http 404) = .notFoundKind ∧
     (s ≠ 401 → s ≠ 403 → s ≠ 404 → specErrorKind (.http s) = .transport) ∧
     specErrorKind .network = .transport) ∧
    (∀ (chooser : List (String × Artifact) → Artifact) (versionOrId : String)
       (opts : DownloadCliOptions),
      executeDownloadResolve (fun _ => .error e) chooser versionOrId opts = .failed e) := by
  refine ⟨⟨rfl, rfl, rfl, rfl⟩, ⟨rfl, rfl, rfl, ?_, rfl⟩, ?_⟩
  · intro h1 h2 h3
    unfold specErrorKind
    split <;> simp_all
  · intro chooser versionOrId opts
    unfold executeDownloadResolve
    dsimp only
    simp only [ite_self]

/-- Witness for C7 at status 500 and a string error. -/
theorem C7_error_propagation_witness :
    specErrorKind (.http 500) = .transport ∧
    executeDownloadResolve (ε := String) (fun _ => .error "net down")
        (fun _ => ⟨"x", "x", "x", "x", "x", 0, "x", "x"⟩) "latest"
        { appId := "App", fromProvider := "app-store-connect" } =
      .failed "net down" := by
  have h := C7_error_propagation 500 (ε := String) "net down"
  exact ⟨h.2.1.2.2.2.1 (by decide) (by decide) (by decide),
    h.2.2 (fun _ => ⟨"x", "x", "x", "x", "x", 0, "x", "x"⟩) "latest"
      { appId := "App", fromProvider := "app-store-connect" }⟩

/-! ## Lemmas: the LATEST / BY_ID branches of `executeDownload` -/

theorem groupFirstByType_append (l : List Artifact) (m : List (String × Artifact)) :
    ∃ t, groupFirstByType l m = m ++ t := by
  induction l generalizing m with
  | nil => exact ⟨[], by simp [groupFirstByType]⟩
  | cons a rest ih =>
    by_cases h : m.any (fun p => p.1 == a.artifactType) = true
    · obtain ⟨t, ht⟩ := ih m
      exact ⟨t, by simpa [groupFirstByType, h] using ht⟩
    · obtain ⟨t, ht⟩ := ih (m ++ [(a.artifactType, a)])
      refine ⟨(a.artifactType, a) :: t, ?_⟩
      have hstep : groupFirstByType (a :: rest) m =
          groupFirstByType rest (m ++ [(a.artifactType, a)]) := by
        simp [groupFirstByType, h]
      rw [hstep, ht, List.append_assoc]
      rfl

/-- Grouping a nonempty list starts with the newest artifact under its
own type. -/
theorem groupFirstByType_head (a : Artifact) (rest : List Artifact) :
    ∃ t, groupFirstByType (a :: rest) [] = (a.artifactType, a) :: t := by
  obtain ⟨t, ht⟩ := groupFirstByType_append rest [(a.artifactType, a)]
  refine ⟨t, ?_⟩
  have hstep : groupFirstByType (a :: rest) [] =
      groupFirstByType rest [(a.artifactType, a)] := by
    simp [groupFirstByType]
  rw [hstep, ht]
  rfl

/-- The LATEST / App-Store-Connect / no-type branch of the resolver. -/
theorem executeDownloadResolve_latest_asc {ε : Type}
    (search : SearchOptions → Except ε (List Artifact))
    (chooser : List (String × Artifact) → Artifact)
    (versionOrId : String) (opts : DownloadCliOptions)
    (hl : isLatestStr versionOrId = true)
    (hasc : opts.fromProvider = "app-store-connect")
    (hnt : truthy opts.artifactType = false) :
    executeDownloadResolve search chooser versionOrId opts =
      (match search { appId := opts.appId, limit := some 10 } with
       | .error e => .failed e
       | .ok allArtifacts =>
         if allArtifacts.isEmpty then .notFound
         else
           if (groupFirstByType allArtifacts []).length == 1 then
             match groupFirstByType allArtifacts [] with
             | (_, a) :: _ => .resolved a
             | [] => .notFound
           else .resolved (chooser (groupFirstByType allArtifacts []))) := by
  have hcond : (opts.fromProvider == "app-store-connect" &&
      !truthy opts.artifactType) = true := by
    simp [hasc, hnt]
  unfold executeDownloadResolve
  simp only [hl, hcond, if_true]

/-- The LATEST branch of the resolver for any other provider (or with an
explicit artifact type): a single limit-1 search, newest result wins. -/
theorem executeDownloadResolve_latest_other {ε : Type}
    (search : SearchOptions → Except ε (List Artifact))
    (chooser : List (String × Artifact) → Artifact)
    (versionOrId : String) (opts : DownloadCliOptions)
    (hl : isLatestStr versionOrId = true)
    (hother : (opts.fromProvider == "app-store-connect" &&
      !truthy opts.artifactType) = false) :
    executeDownloadResolve search chooser versionOrId opts =
      (match search
          { appId := opts.appId, artifactType := opts.artifactType, limit := some 1 } with
       | .error e => .failed e
       | .ok artifacts =>
         match artifacts with
         | [] => .notFound
         | a :: _ => .resolved a) := by
  unfold executeDownloadResolve
  simp only [hl, hother, if_true, Bool.false_eq_true, if_false]

/-- The BY_ID branch of the resolver. -/
theorem executeDownloadResolve_byid {ε : Type}
    (search : SearchOptions → Except ε (List Artifact))
    (chooser : List (String × Artifact) → Artifact)
    (versionOrId : String) (opts : DownloadCliOptions)
    (hl : isLatestStr versionOrId = false)
    (hid : isArtifactIdStr versionOrId = true) :
    executeDownloadResolve search chooser versionOrId opts =
      (match search { appId := opts.appId, limit := some 50 } with
       | .error e => .failed e
       | .ok artifacts =>
         match artifacts.find? (fun a => a.id == versionOrId) with
         | some a => .resolved a
         | none => .notFound) := by
  unfold executeDownloadResolve
  simp only [hl, hid, if_true, Bool.false_eq_true, if_false]

/-- C1 counterexample: a LATEST resolution with no explicit artifactType
against the `app-distribution` provider does not run the limit-10
dedup/disambiguation flow — it searches with limit 1 and resolves to the
newest artifact, never invoking the chooser, even though the limit-10
candidate set holds two distinct types and the chooser would have picked
the other artifact. -/
theorem C1_counterexample :
    executeDownloadResolve c1Search c1Chooser "latest" c1Opts = .resolved c1Dev ∧
    c1Search { appId := "App", limit := some 10 } = .ok [c1Dev, c1Adhoc] ∧
    (groupFirstByType [c1Dev, c1Adhoc] []).length = 2 ∧
    executeDownloadResolve c1Search c1Chooser "latest" c1Opts ≠
      .resolved (c1Chooser (groupFirstByType [c1Dev, c1Adhoc] [])) := by
  refine ⟨by rfl, by rfl, by rfl, by decide⟩

/-- C1 (amended): for a LATEST resolution with no explicit artifactType
*against the app-store-connect provider*, the resolver fetches a
candidate set with limit 10; an adapter error propagates; zero candidates
give NOT_FOUND; first-seen-wins dedup over the newest-first ordering
leaves an insertion-ordered (type, artifact) list — exactly one distinct
type auto-resolves to the newest artifact without consulting the chooser
(the outcome is chooser-independent), and more than one distinct type
resolves to exactly the chooser's selection over that list.  Against any
other provider, LATEST without a type filter searches with limit 1 and
resolves to the newest result (NOT_FOUND when empty). -/
theorem C1_amended {ε : Type} (search : SearchOptions → Except ε (List Artifact))
    (chooser chooser' : List (String × Artifact) → Artifact)
    (versionOrId : String) (opts : DownloadCliOptions)
    (hl : isLatestStr versionOrId = true)
    (hnt : truthy opts.artifactType = false) :
    (opts.fromProvider = "app-store-connect" →
      (∀ e, search { appId := opts.appId, limit := some 10 } = .error e →
        executeDownloadResolve search chooser versionOrId opts = .failed e) ∧
      (search { appId := opts.appId, limit := some 10 } = .ok [] →
        executeDownloadResolve search chooser versionOrId opts = .notFound) ∧
      (∀ a rest, search { appId := opts.appId, limit := some 10 } = .ok (a :: rest) →
        (groupFirstByType (a :: rest) []).length = 1 →
        executeDownloadResolve search chooser versionOrId opts = .resolved a ∧
        executeDownloadResolve search chooser versionOrId opts =
          executeDownloadResolve search chooser' versionOrId opts) ∧
      (∀ arts, search { appId := opts.appId, limit := some 10 } = .ok arts →
        arts ≠ [] → (groupFirstByType arts []).length ≠ 1 →
        executeDownloadResolve search chooser versionOrId opts =
          .resolved (chooser (groupFirstByType arts [])))) ∧
    (opts.fromProvider ≠ "app-store-connect" →
      ∀ arts,
      search
          { appId := opts.appId, artifactType := opts.artifactType, limit := some 1 } =
        .ok arts →
      executeDownloadResolve search chooser versionOrId opts =
        (match arts with
         | [] => ResolveOutcome.notFound
         | a :: _ => ResolveOutcome.resolved a)) := by
  constructor
  · intro hasc
    refine ⟨?_, ?_, ?_, ?_⟩
    · intro e he
      rw [executeDownloadResolve_latest_asc search chooser versionOrId opts hl hasc hnt, he]
    · intro hok
      rw [executeDownloadResolve_latest_asc search chooser versionOrId opts hl hasc hnt, hok]
      rfl
    · intro a rest hok hone
      obtain ⟨t, ht⟩ := groupFirstByType_head a rest
      have hbeq : ((groupFirstByType (a :: rest) []).length == 1) = true := by
        rw [hone]
        rfl
      rw [ht] at hbeq
      constructor
      · rw [executeDownloadResolve_latest_asc search chooser versionOrId opts hl hasc hnt,
          hok]
        simp only [List.isEmpty_cons, Bool.false_eq_true, if_false, ht, hbeq, if_true]
      · rw [executeDownloadResolve_latest_asc search chooser versionOrId opts hl hasc hnt,
          executeDownloadResolve_latest_asc search chooser' versionOrId opts hl hasc hnt,
          hok]
        simp only [List.isEmpty_cons, Bool.false_eq_true, if_false, ht, hbeq, if_true]
    · intro arts hok hne hlen
      have hbeq : ((groupFirstByType arts []).length == 1) = false := by
        simpa using hlen
      have hemp : arts.isEmpty = false := by
        cases arts with
        | nil => exact absurd rfl hne
        | cons a rest => rfl
      rw [executeDownloadResolve_latest_asc search chooser versionOrId opts hl hasc hnt,
        hok]
      simp only [hemp, Bool.false_eq_true, if_false, hbeq]
  · intro hother arts hok
    have hcond : (opts.fromProvider == "app-store-connect" &&
        !truthy opts.artifactType) = false := by
      simp [hother]
    rw [executeDownloadResolve_latest_other search chooser versionOrId opts hl hcond, hok]

/-- Witness for C1 (amended): the app-store-connect branch disambiguates
via the chooser on the two-type candidate set, and the other-provider
branch returns the newest limit-1 result. -/
theorem C1_amended_witness :
    executeDownloadResolve c1Search c1Chooser "latest"
        { appId := "App", fromProvider := "app-store-connect" } =
      .resolved (c1Chooser (groupFirstByType [c1Dev, c1Adhoc] [])) ∧
    executeDownloadResolve c1Search c1Chooser "latest" c1Opts = .resolved c1Dev := by
  have h1 := C1_amended c1Search c1Chooser c1Chooser "latest"
    { appId := "App", fromProvider := "app-store-connect" } (by decide) (by decide)
  have h2 := C1_amended c1Search c1Chooser c1Chooser "latest" c1Opts
    (by decide) (by decide)
  exact ⟨(h1.1 rfl).2.2.2 [c1Dev, c1Adhoc] (by rfl) (by decide) (by decide),
    h2.2 (by decide) [c1Dev] (by rfl)⟩

/-! ## C3: BY_ID over the 50-deep search window -/

/-- C3: BY_ID issues a single limit-50 search and linearly scans its
result for an exact id match, first match wins; the outcome is NOT_FOUND
exactly when the target id is absent from the (at most 50) returned
artifacts — even when an artifact with that id exists further back in
the history the window was cut from. -/
theorem C3_by_id {ε : Type} (search : SearchOptions → Except ε (List Artifact))
    (chooser : List (String × Artifact) → Artifact)
    (versionOrId : String) (opts : DownloadCliOptions)
    (hl : isLatestStr versionOrId = false)
    (hid : isArtifactIdStr versionOrId = true)
    (history : List Artifact)
    (hsearch : search { appId := opts.appId, limit := some 50 } = .ok (history.take 50)) :
    executeDownloadResolve search chooser versionOrId opts =
      (match (history.take 50).find? (fun a => a.id == versionOrId) with
       | some a => ResolveOutcome.resolved a
       | none => ResolveOutcome.notFound) ∧
    (executeDownloadResolve search chooser versionOrId opts = ResolveOutcome.notFound ↔
      versionOrId ∉ (history.take 50).map (fun a => a.id)) ∧
    (versionOrId ∈ history.map (fun a => a.id) →
      versionOrId ∉ (history.take 50).map (fun a => a.id) →
      executeDownloadResolve search chooser versionOrId opts = ResolveOutcome.notFound) := by
  have hmain : executeDownloadResolve search chooser versionOrId opts =
      (match (history.take 50).find? (fun a => a.id == versionOrId) with
       | some a => ResolveOutcome.resolved a
       | none => ResolveOutcome.notFound) := by
    rw [executeDownloadResolve_byid search chooser versionOrId opts hl hid, hsearch]
  have hiff : executeDownloadResolve search chooser versionOrId opts =
        ResolveOutcome.notFound ↔
      versionOrId ∉ (history.take 50).map (fun a => a.id) := by
    rw [hmain]
    cases hfind : (history.take 50).find? (fun a => a.id == versionOrId) with
    | some a =>
      constructor
      · intro h
        exact absurd h (by simp)
      · intro hmem
        exfalso
        have hpa := List.find?_some hfind
        have hid' : a.id = versionOrId := by simpa using hpa
        exact hmem (List.mem_map.mpr ⟨a, List.mem_of_find?_eq_some hfind, hid'⟩)
    | none =>
      constructor
      · intro _ hmem
        obtain ⟨a, hamem, haid⟩ := List.mem_map.mp hmem
        have hnp := List.find?_eq_none.mp hfind a hamem
        simp [haid] at hnp
      · intro _
        rfl
  refine ⟨hmain, hiff, ?_⟩
  intro _ hnot
  exact hiff.mpr hnot

/-- Witness for C3: the id exists in the history but outside the 50-deep
window, so BY_ID resolution ends in NOT_FOUND. -/
theorem C3_by_id_witness :
    executeDownloadResolve c3Search (fun _ => c3Target) "aaaaaaaaaaaa2"
        { appId := "App", fromProvider := "app-store-connect" } =
      ResolveOutcome.notFound := by
  have h := C3_by_id c3Search (fun _ => c3Target) "aaaaaaaaaaaa2"
    { appId := "App", fromProvider := "app-store-connect" } (by decide) (by decide)
    c3History (by rfl)
  exact h.2.2 (by decide) (by decide)

/-! ## Lemmas: `path.join` keeps the appended file name as a suffix -/

theorem splitChar_cons_sep (c : Char) (xs : List Char) :
    splitChar c (c :: xs) = [] :: splitChar c xs := by
  simp [splitChar]

theorem splitChar_cons_ne (c x : Char) (xs : List Char) (h : ¬ x = c) :
    splitChar c (x :: xs) =
      (match splitChar c xs with
       | hh :: tt => (x :: hh) :: tt
       | [] => [[x]]) := by
  simp [splitChar, h]

theorem splitChar_ne_nil (c : Char) (l : List Char) : splitChar c l ≠ [] := by
  induction l with
  | nil => simp [splitChar]
  | cons x xs ih =>
    by_cases h : x = c
    · subst h
      rw [splitChar_cons_sep]
      simp
    · rw [splitChar_cons_ne c x xs h]
      cases hr : splitChar c xs with
      | nil => simp
      | cons hh tt => simp

theorem splitChar_append_sep (c : Char) (xs ys : List Char) :
    splitChar c (xs ++ c :: ys) = splitChar c xs ++ splitChar c ys := by
  induction xs with
  | nil =>
    rw [List.nil_append, splitChar_cons_sep]
    rfl
  | cons x xs ih =>
    by_cases h : x = c
    · subst h
      rw [List.cons_append, splitChar_cons_sep, splitChar_cons_sep, ih, List.cons_append]
    · rw [List.cons_append, splitChar_cons_ne c x _ h, splitChar_cons_ne c x xs h, ih]
      cases hr : splitChar c xs with
      | nil => exact absurd hr (splitChar_ne_nil c xs)
      | cons hh tt => simp

theorem splitChar_of_not_mem (c : Char) (l : List Char) (h : c ∉ l) :
    splitChar c l = [l] := by
  induction l with
  | nil => rfl
  | cons x xs ih =>
    have hx : ¬ x = c := fun he => h (he ▸ List.mem_cons_self x xs)
    rw [splitChar_cons_ne c x xs hx, ih fun hm => h (List.mem_cons_of_mem x hm)]

theorem normStep_push (ab : Bool) (st : List (List Char)) (seg : List Char)
    (h1 : seg ≠ []) (h2 : seg ≠ ['.']) (h3 : seg ≠ ['.', '.']) :
    normStep ab st seg = st ++ [seg] := by
  simp [normStep, h1, h2, h3]

theorem suffix_joinSegs_append (segs : List (List Char)) (fn : List Char) :
    fn <:+ joinSegs (segs ++ [fn]) := by
  induction segs with
  | nil =>
    rw [List.nil_append]
    exact List.suffix_refl fn
  | cons s rest ih =>
    have hstep : joinSegs (s :: (rest ++ [fn])) = s ++ '/' :: joinSegs (rest ++ [fn]) := by
      cases rest with
      | nil => rfl
      | cons s2 rest2 => rfl
    rw [List.cons_append, hstep]
    exact (ih.trans (List.suffix_cons '/' _)).trans (List.suffix_append s _)

theorem pathNormalize_suffix (p fn : List Char)
    (hne : fn ≠ []) (hslash : '/' ∉ fn) (hdot : fn ≠ ['.']) (hdd : fn ≠ ['.', '.']) :
    fn <:+ pathNormalize (p ++ '/' :: fn) := by
  obtain ⟨fl, fa, rfl⟩ : ∃ fl fa, fn = fl ++ [fa] := by
    rcases List.eq_nil_or_concat fn with h | ⟨fl, fa, h⟩
    · exact absurd h hne
    · exact ⟨fl, fa, by simpa [List.concat_eq_append] using h⟩
  have hfa : fa ≠ '/' := by
    intro h
    exact hslash (h ▸ List.mem_append_right fl (List.mem_cons_self fa []))
  have hqne : ¬(p ++ '/' :: (fl ++ [fa]) = []) := by simp
  have htrail : ((p ++ '/' :: (fl ++ [fa])).getLast? == some '/') = false := by
    have h1 : (p ++ '/' :: (fl ++ [fa])).getLast? = some fa := by
      rw [List.getLast?_append_of_ne_nil _ (by simp : ('/' :: (fl ++ [fa])) ≠ [])]
      rw [show ('/' :: (fl ++ [fa])) = ('/' :: fl) ++ [fa] from by simp]
      exact List.getLast?_concat _
    rw [h1]
    simpa using hfa
  have hsegs : splitChar '/' (p ++ '/' :: (fl ++ [fa])) =
      splitChar '/' p ++ [fl ++ [fa]] := by
    rw [splitChar_append_sep, splitChar_of_not_mem '/' (fl ++ [fa]) hslash]
  have hstack : ∀ b : Bool,
      (splitChar '/' (p ++ '/' :: (fl ++ [fa]))).foldl (normStep b) [] =
        ((splitChar '/' p).foldl (normStep b) []) ++ [fl ++ [fa]] := by
    intro b
    rw [hsegs, List.foldl_append]
    simp only [List.foldl_cons, List.foldl_nil]
    exact normStep_push b _ _ hne hdot hdd
  have hres : ∀ b : Bool,
      (fl ++ [fa]) <:+
        joinSegs ((splitChar '/' (p ++ '/' :: (fl ++ [fa]))).foldl (normStep b) []) := by
    intro b
    rw [hstack b]
    exact suffix_joinSegs_append _ _
  have hresne : ∀ b : Bool,
      ¬(joinSegs ((splitChar '/' (p ++ '/' :: (fl ++ [fa]))).foldl (normStep b) []) = []) := by
    intro b hnil
    obtain ⟨t, ht⟩ := hres b
    rw [hnil] at ht
    simp at ht
  unfold pathNormalize
  rw [if_neg hqne]
  simp only [htrail, Bool.false_eq_true, if_false]
  rw [if_neg (hresne _)]
  cases habs : ((p ++ '/' :: (fl ++ [fa])).head? == some '/') with
  | false => simpa using hres _
  | true => simpa using (hres _).trans (List.suffix_cons '/' _)

/-- Normalizing a lone plain segment is the identity. -/
theorem pathNormalize_seg (fn : List Char)
    (hne : fn ≠ []) (hslash : '/' ∉ fn) (hdot : fn ≠ ['.']) (hdd : fn ≠ ['.', '.']) :
    pathNormalize fn = fn := by
  obtain ⟨f0, fr, rfl⟩ : ∃ f0 fr, fn = f0 :: fr := by
    cases fn with
    | nil => exact absurd rfl hne
    | cons f0 fr => exact ⟨f0, fr, rfl⟩
  have hf0 : f0 ≠ '/' := fun h => hslash (h ▸ List.mem_cons_self f0 fr)
  have hhead : ((f0 :: fr).head? == some '/') = false := by simpa using hf0
  have htrail : ((f0 :: fr).getLast? == some '/') = false := by
    obtain ⟨fl, fa, hconcat⟩ : ∃ fl fa, f0 :: fr = fl ++ [fa] := by
      rcases List.eq_nil_or_concat (f0 :: fr) with h | ⟨fl, fa, h⟩
      · exact absurd h (by simp)
      · exact ⟨fl, fa, by simpa [List.concat_eq_append] using h⟩
    have hfa : fa ≠ '/' := fun h =>
      hslash (hconcat ▸ h ▸ List.mem_append_right fl (List.mem_cons_self fa []))
    rw [hconcat, List.getLast?_concat]
    simp [hfa]
  have hsegs : splitChar '/' (f0 :: fr) = [f0 :: fr] :=
    splitChar_of_not_mem '/' (f0 :: fr) hslash
  have hstack : ∀ b : Bool,
      (splitChar '/' (f0 :: fr)).foldl (normStep b) [] = [f0 :: fr] := by
    intro b
    rw [hsegs]
    simp only [List.foldl_cons, List.foldl_nil]
    rw [normStep_push b [] _ hne hdot hdd]
    rfl
  unfold pathNormalize
  rw [if_neg (by simp : ¬(f0 :: fr = []))]
  simp only [hhead, htrail, Bool.false_eq_true, if_false, hstack]
  rw [if_neg (by simp [joinSegs] : ¬(joinSegs [f0 :: fr] = []))]
  simp [joinSegs]

/-- C9 counterexample: Node `path.join` normalizes the joined path, so
destination `"./out"` with file name `"build.ipa"` produces
`"out/build.ipa"` — the same filesystem location, but not the literal
string `"./out/build.ipa"` the claim states. -/
theorem C9_counterexample :
    resolveOutputPath "./out" "build.ipa" = "out/build.ipa" ∧
    resolveOutputPath "./out" "build.ipa" ≠ "./out/build.ipa" :=
  ⟨by rfl, by decide⟩

/-- C9 (amended): a destination already ending in the artifact's file
name is used verbatim (so `"./out/build.ipa"` stays as is); otherwise the
destination is treated as a directory and the file name joined onto it
with Node `path.join`, whose normalization drops the leading `"./"`:
`"./out"` with `"build.ipa"` produces `"out/build.ipa"` (the normalized
spelling of `"./out/build.ipa"`), and in general the produced path ends
with the file name.  Missing parent directories are created by an
idempotent `mkdir` outside this value-level model. -/
theorem C9_amended :
    resolveOutputPath "./out" "build.ipa" = "out/build.ipa" ∧
    resolveOutputPath "./out/build.ipa" "build.ipa" = "./out/build.ipa" ∧
    (∀ output fileName : String, strEndsWith output.data fileName = true →
      resolveOutputPath output fileName = output) ∧
    (∀ output fileName : String,
      fileName.data ≠ [] → '/' ∉ fileName.data → fileName.data ≠ ['.'] →
      fileName.data ≠ ['.', '.'] →
      strEndsWith (resolveOutputPath output fileName).data fileName = true) := by
  refine ⟨by rfl, by rfl, ?_, ?_⟩
  · intro output fileName h
    simp [resolveOutputPath, h]
  · intro output fileName h1 h2 h3 h4
    by_cases hend : strEndsWith output.data fileName = true
    · simp [resolveOutputPath, hend]
    · have hend' : strEndsWith output.data fileName = false := Bool.eq_false_iff.mpr hend
      have hpj : resolveOutputPath output fileName = pathJoin output fileName := by
        simp [resolveOutputPath, hend']
      rw [hpj]
      show (fileName.data.isSuffixOf (pathJoin output fileName).data) = true
      rw [List.isSuffixOf_iff_suffix]
      cases ho : output.data with
      | nil =>
        cases hf : fileName.data with
        | nil => exact absurd hf h1
        | cons f0 fr =>
          have hpn : pathJoin output fileName = String.mk (pathNormalize (f0 :: fr)) := by
            simp [pathJoin, ho, hf]
          rw [hpn, show (String.mk (pathNormalize (f0 :: fr))).data =
            pathNormalize (f0 :: fr) from rfl]
          rw [pathNormalize_seg (f0 :: fr) (by simp) (hf ▸ h2) (hf ▸ h3) (hf ▸ h4)]
      | cons o0 or' =>
        cases hf : fileName.data with
        | nil => exact absurd hf h1
        | cons f0 fr =>
          have hpn : pathJoin output fileName =
              String.mk (pathNormalize ((o0 :: or') ++ '/' :: (f0 :: fr))) := by
            simp [pathJoin, ho, hf]
          rw [hpn]
          exact pathNormalize_suffix (o0 :: or') (f0 :: fr) (by simp)
            (hf ▸ h2) (hf ▸ h3) (hf ▸ h4)

/-- Witness for C9 (amended): the verbatim branch at a concrete pair, and
the suffix property at `out=/tmp`, `fileName=a.apk`. -/
theorem C9_amended_witness :
    resolveOutputPath "./out/build.ipa" "build.ipa" = "./out/build.ipa" ∧
    strEndsWith (resolveOutputPath "/tmp" "a.apk").data "a.apk" = true := by
  have h := C9_amended
  exact ⟨h.2.2.1 "./out/build.ipa" "build.ipa" (by decide),
    h.2.2.2 "/tmp" "a.apk" (by decide) (by decide) (by decide) (by decide)⟩

end ArtifactDownloader
